import Mathlib

/-!
Verification of the graph-builder and legend logic of `diagram.py`
(aws-inventory). The Python program reads eight JSON resource
collections, builds a directed topology graph with networkx, detects
unattached resources, and renders one diagram per network container.

The definitions below are a shallow embedding of `main` in `diagram.py`:
JSON records become structures with `Option` fields (absent keys are
`none`), Python dict/set values become association lists and
duplicate-free lists, and the networkx `DiGraph` becomes an explicit
node/edge list with the same semantics (`add_node` on an existing id
replaces its attributes, `add_edge` silently creates missing endpoint
nodes, duplicate edges are no-ops). Runtime errors that the Python code
can raise (IndexError from a negative index into a too-short list,
KeyError from a missing attribute key) are modelled with `Except`.
-/

namespace AwsInventory

/-- Python truthiness of an optional JSON string: `None` and the empty
string are falsy, every other string is truthy. -/
def truthy : Option String → Bool
  | none => false
  | some s => !s.isEmpty

/-- Split a character list at every occurrence of `c`. The result is
never empty. -/
def splitChar (c : Char) : List Char → List (List Char)
  | [] => [[]]
  | x :: xs =>
    match splitChar c xs with
    | [] => if x = c then [[], []] else [[x]]
    | y :: ys => if x = c then [] :: y :: ys else (x :: y) :: ys

/-- Python `s.split(c)` for a one-character separator (the program only
splits on `":"` and `"/"`): `"".split(c)` is `[""]`, and every
occurrence of the separator starts a new segment. -/
def pySplit (s : String) (c : Char) : List String :=
  (splitChar c s.data).map String.mk

/-- One entry of `vpcs.json` / key `Vpcs`: fields `VpcId` (required) and
`CidrBlock` (read with `v.get("CidrBlock", "unknown")`). -/
structure Vpc where
  VpcId : String
  CidrBlock : Option String
deriving DecidableEq

/-- One entry of a subnet tag list; only `Value` is read, defensively. -/
structure Tag where
  Value : Option String
deriving DecidableEq

/-- One entry of `subnets.json` / key `Subnets`: `SubnetId` and `VpcId`
are required, `Tags` is read with `s.get("Tags", [{}])`. -/
structure Subnet where
  SubnetId : String
  VpcId : String
  Tags : Option (List Tag)
deriving DecidableEq

/-- One entry of a database subnet group list; `SubnetIdentifier` is
read with `sn.get("SubnetIdentifier")` and checked for truthiness. -/
structure DbSubnet where
  SubnetIdentifier : Option String
deriving DecidableEq

/-- The `DBSubnetGroup` object of a database; `Subnets` is read with
`.get("Subnets", [])`. -/
structure DbSubnetGroup where
  Subnets : Option (List DbSubnet)
deriving DecidableEq

/-- One entry of `rds-instances.json` / key `DBInstances`. -/
structure DbInstance where
  DBInstanceIdentifier : String
  DBSubnetGroup : Option DbSubnetGroup
deriving DecidableEq

/-- One entry of `load-balancers.json` / key `LoadBalancers`. -/
structure LoadBalancerRec where
  LoadBalancerArn : String
  LoadBalancerName : String
  VpcId : String
  TargetGroupArns : Option (List String)
deriving DecidableEq

/-- One load-balancer binding of a container service:
`lb.get("loadBalancerName")` and `lb.get("targetGroupArn", "")`. -/
structure ServiceLbBinding where
  loadBalancerName : Option String
  targetGroupArn : Option String
deriving DecidableEq

/-- One entry of `ecs-services.json` / key `services`. -/
structure EcsService where
  serviceName : String
  clusterArn : String
  loadBalancers : Option (List ServiceLbBinding)
deriving DecidableEq

/-- One entry of `target-groups.json` / key `TargetGroups`. -/
structure TargetGroupRec where
  TargetGroupArn : String
  VpcId : String
deriving DecidableEq

/-- One entry of `ec2-instances.json` / key `Reservations`; only the
length of `Instances` is consumed (legend count). -/
structure Reservation where
  Instances : List Unit
deriving DecidableEq

/-- The eight parsed input documents (the `ecs-clusters.json` document
is loaded by the program but never consumed, so it has no field here). -/
structure Inventory where
  vpcs : List Vpc
  subnets : List Subnet
  reservations : List Reservation
  dbInstances : List DbInstance
  loadBalancers : List LoadBalancerRec
  services : List EcsService
  targetGroups : List TargetGroupRec
deriving DecidableEq

/-- Node attributes as networkx stores them: an attribute dictionary in
which each of the three keys used by the program may be present or
absent. A node created implicitly by `add_edge` has all three absent. -/
structure NodeAttrs where
  label : Option String
  color : Option String
  layer : Option Nat
deriving DecidableEq

def NodeAttrs.empty : NodeAttrs := ⟨none, none, none⟩

/-- The networkx `DiGraph`: insertion-ordered node list (id with
attribute dictionary) and insertion-ordered duplicate-free edge list. -/
structure Graph where
  nodes : List (String × NodeAttrs)
  edges : List (String × String)
deriving DecidableEq

def Graph.empty : Graph := ⟨[], []⟩

def Graph.hasNode (g : Graph) (i : String) : Bool :=
  g.nodes.any (fun p => p.1 == i)

/-- The node ids, in insertion order. -/
def Graph.keys (g : Graph) : List String :=
  g.nodes.map Prod.fst

/-- `G.add_node(i, **attrs)`: every call in the program passes all three
attribute keys, so on an existing node the attribute dictionary is
replaced; on a fresh id the node is appended. -/
def Graph.addNodeAttrs (g : Graph) (i : String) (a : NodeAttrs) : Graph :=
  if g.hasNode i then
    { g with nodes := g.nodes.map (fun p => if p.1 == i then (i, a) else p) }
  else
    { g with nodes := g.nodes ++ [(i, a)] }

/-- networkx creates a missing endpoint of `add_edge` as a node with an
empty attribute dictionary. -/
def Graph.ensureNode (g : Graph) (i : String) : Graph :=
  if g.hasNode i then g else { g with nodes := g.nodes ++ [(i, NodeAttrs.empty)] }

def Graph.hasEdge (g : Graph) (u v : String) : Bool :=
  g.edges.any (fun e => e.1 == u && e.2 == v)

/-- `G.add_edge(u, v)`: both endpoints are created if missing, and a
duplicate edge is a no-op. -/
def Graph.addEdge (g : Graph) (u v : String) : Graph :=
  let g2 := (g.ensureNode u).ensureNode v
  if g2.hasEdge u v then g2 else { g2 with edges := g2.edges ++ [(u, v)] }

/-- `G.in_degree(i)`: the number of edges whose target is `i`. -/
def Graph.inDegree (g : Graph) (i : String) : Nat :=
  (g.edges.filter (fun e => e.2 == i)).length

/-- The attribute dictionary of node `i`, when `i` is a node. -/
def Graph.attrsOf (g : Graph) (i : String) : Option NodeAttrs :=
  (g.nodes.find? (fun p => p.1 == i)).map Prod.snd

/-- `G.nodes[i]["label"]`: `none` models a KeyError (node absent or
label attribute absent). -/
def Graph.labelOf (g : Graph) (i : String) : Option String :=
  (g.attrsOf i).bind (fun a => a.label)

/-- Builder state: the graph plus, as ghost instrumentation, the list of
ids passed to the explicit `add_node` calls, in order, used to state
whether two construction steps add the same id. -/
structure BState where
  g : Graph
  addedIds : List String
deriving DecidableEq

def BState.addNode (st : BState) (i : String) (a : NodeAttrs) : BState :=
  ⟨st.g.addNodeAttrs i a, st.addedIds ++ [i]⟩

def BState.addEdge (st : BState) (u v : String) : BState :=
  ⟨st.g.addEdge u v, st.addedIds⟩

/-- The two runtime errors the builder can raise. -/
inductive BuildError where
  | indexError
  | keyError
deriving DecidableEq

instance {ε α : Type} [DecidableEq ε] [DecidableEq α] : DecidableEq (Except ε α) :=
  fun a b =>
    match a, b with
    | .ok x, .ok y =>
      if h : x = y then isTrue (by rw [h])
      else isFalse (by intro hc; injection hc; exact h (by assumption))
    | .error e, .error f =>
      if h : e = f then isTrue (by rw [h])
      else isFalse (by intro hc; injection hc; exact h (by assumption))
    | .ok _, .error _ => isFalse (fun hc => Except.noConfusion hc)
    | .error _, .ok _ => isFalse (fun hc => Except.noConfusion hc)

/-- Append a string to a Python set modelled as a duplicate-free list. -/
def insertNew (l : List String) (s : String) : List String :=
  if l.contains s then l else l ++ [s]

/-- Write one key into a Python dict modelled as an association list
(a later write to the same key overwrites the earlier one). -/
def insertKV (m : List (String × String)) (k v : String) : List (String × String) :=
  if m.any (fun p => p.1 == k) then
    m.map (fun p => if p.1 == k then (k, v) else p)
  else
    m ++ [(k, v)]

def lookupKV (m : List (String × String)) (k : String) : Option String :=
  (m.find? (fun p => p.1 == k)).map Prod.snd

/-- The `target_to_lb` dict comprehension (built and never read). -/
def targetToLb (lbs : List LoadBalancerRec) : List (String × String) :=
  lbs.foldl
    (fun m lb =>
      (lb.TargetGroupArns.getD []).foldl
        (fun m tg => insertKV m tg lb.LoadBalancerArn) m)
    []

/-- The `tg_to_vpc` dict comprehension. -/
def tgToVpc (tgs : List TargetGroupRec) : List (String × String) :=
  tgs.foldl (fun m tg => insertKV m tg.TargetGroupArn tg.VpcId) []

/-- One binding of the used-name scan (step 5 of the builder): a truthy
direct name is recorded; otherwise, a truthy target-group ARN has its
last colon-delimited component split on `/`, and when that yields at
least two segments the second-to-last one is recorded. -/
def usedNamesStep (acc : List String) (b : ServiceLbBinding) : List String :=
  let tg_arn := b.targetGroupArn.getD ""
  if truthy b.loadBalancerName then
    insertNew acc (b.loadBalancerName.getD "")
  else if !tg_arn.isEmpty then
    let parts := pySplit ((pySplit tg_arn ':').getLastD "") '/'
    if parts.length ≥ 2 then insertNew acc (parts.getD (parts.length - 2) "")
    else acc
  else acc

/-- The `used_lb_names` set. -/
def usedLbNames (svcs : List EcsService) : List String :=
  svcs.foldl (fun acc svc => (svc.loadBalancers.getD []).foldl usedNamesStep acc) []

/-- Step 1: one node per container, label `VPC` plus CIDR (default
`unknown`), layer 2. -/
def stepVpcs (st : BState) (vs : List Vpc) : BState :=
  vs.foldl
    (fun st v =>
      st.addNode v.VpcId
        ⟨some ("VPC\n" ++ v.CidrBlock.getD "unknown"), some "skyblue", some 2⟩)
    st

/-- `s.get("Tags", [{}])[0].get("Value", s["SubnetId"])`: an absent
`Tags` key defaults to a one-element list holding an empty dict, so the
subnet id is used; a present but empty `Tags` list makes the index `[0]`
raise IndexError; otherwise the first tag is read. -/
def subnetName (s : Subnet) : Except BuildError String :=
  match s.Tags with
  | none => .ok s.SubnetId
  | some [] => .error .indexError
  | some (t :: _) => .ok (t.Value.getD s.SubnetId)

/-- Step 2: one node per subnet plus the edge container → subnet. -/
def stepSubnets (st : BState) (subs : List Subnet) : Except BuildError BState :=
  subs.foldlM
    (fun st s => do
      let name ← subnetName s
      let st := st.addNode s.SubnetId
        ⟨some ("Subnet\n" ++ name), some "lightgreen", some 1⟩
      pure (st.addEdge s.VpcId s.SubnetId))
    st

/-- `db.get("DBSubnetGroup", {}).get("Subnets", [])`. -/
def dbSubnets (db : DbInstance) : List DbSubnet :=
  ((db.DBSubnetGroup.bind (fun grp => grp.Subnets)).getD [])

/-- Step 3 for one database: a node, plus one edge subnet → database per
listed subnet whose `SubnetIdentifier` is truthy. -/
def stepDb (st : BState) (db : DbInstance) : BState :=
  let st := st.addNode db.DBInstanceIdentifier ⟨some "RDS", some "plum", some 0⟩
  (dbSubnets db).foldl
    (fun st sn =>
      if truthy sn.SubnetIdentifier then
        st.addEdge (sn.SubnetIdentifier.getD "") db.DBInstanceIdentifier
      else st)
    st

def stepDbs (st : BState) (dbs : List DbInstance) : BState :=
  dbs.foldl stepDb st

/-- Step 6: a node `LB:<name>` only for load balancers whose name is in
the used-name set, plus the edge container → load balancer. -/
def stepLbs (st : BState) (lbs : List LoadBalancerRec) (used : List String) : BState :=
  lbs.foldl
    (fun st lb =>
      if used.contains lb.LoadBalancerName then
        let lb_id := "LB:" ++ lb.LoadBalancerName
        let st := st.addNode lb_id ⟨some "Load Balancer", some "lightslategray", some 3⟩
        st.addEdge lb.VpcId lb_id
      else st)
    st

/-- Step 7 name resolution, exactly as the Python line
`lb_name = lb.get("loadBalancerName") or tg_arn.split("/")[-2] if tg_arn else None`
parses: the conditional ranges over the whole expression, so an empty
ARN yields `None` even when a direct name is present; with a non-empty
ARN the direct name wins when truthy, and otherwise the whole ARN is
split on `/` and the second-to-last segment is taken, raising IndexError
when there are fewer than two segments. -/
def resolveStep7 (b : ServiceLbBinding) : Except BuildError (Option String) :=
  let tg_arn := b.targetGroupArn.getD ""
  if tg_arn.isEmpty then .ok none
  else if truthy b.loadBalancerName then .ok b.loadBalancerName
  else
    let parts := pySplit tg_arn '/'
    if parts.length ≥ 2 then .ok (some (parts.getD (parts.length - 2) ""))
    else .error .indexError

/-- Processing of one load-balancer binding inside step 7: a truthy
resolved name gets an on-demand `LB:` node and the edge
service → load balancer; independently, a truthy ARN found in the
target-group map adds the edge container → service. -/
def processBinding (m : List (String × String)) (service_id : String)
    (st : BState) (b : ServiceLbBinding) : Except BuildError BState := do
  let tg_arn := b.targetGroupArn.getD ""
  let lb_name ← resolveStep7 b
  let st :=
    if truthy lb_name then
      let lb_id := "LB:" ++ lb_name.getD ""
      let st :=
        if st.g.hasNode lb_id then st
        else st.addNode lb_id ⟨some "Load Balancer", some "lightslategray", some 3⟩
      st.addEdge service_id lb_id
    else st
  let st :=
    if !tg_arn.isEmpty then
      match lookupKV m tg_arn with
      | some vpc => st.addEdge vpc service_id
      | none => st
    else st
  pure st

/-- `svc["clusterArn"].split("/")[-1]`. -/
def clusterShortName (svc : EcsService) : String :=
  (pySplit svc.clusterArn '/').getLastD ""

/-- Step 7 for one service: cluster and service nodes, the edge
cluster → service, then every binding. -/
def stepService (m : List (String × String)) (st : BState) (svc : EcsService) :
    Except BuildError BState := do
  let cluster_id := "CLUSTER:" ++ clusterShortName svc
  let service_id := "SVC:" ++ svc.serviceName
  let st := st.addNode cluster_id ⟨some "ECS Cluster", some "lightyellow", some 3⟩
  let st := st.addNode service_id
    ⟨some ("ECS Service\n" ++ svc.serviceName), some "gold", some 4⟩
  let st := st.addEdge cluster_id service_id
  (svc.loadBalancers.getD []).foldlM (processBinding m service_id) st

def stepServices (m : List (String × String)) (st : BState)
    (svcs : List EcsService) : Except BuildError BState :=
  svcs.foldlM (stepService m) st

/-- The label set of the unattached check. -/
def alwaysContainedLabels : List String := ["EC2", "RDS", "ECS Cluster", "ECS Task"]

/-- One node of the step 8 comprehension: a node with in-degree zero
has its label attribute read (KeyError when absent) and is collected
when the label is an always-contained kind. -/
def unattachedStep (g : Graph) (acc : List String) (p : String × NodeAttrs) :
    Except BuildError (List String) :=
  if g.inDegree p.1 == 0 then
    match g.labelOf p.1 with
    | none => .error .keyError
    | some lab => pure (if alwaysContainedLabels.contains lab then acc ++ [p.1] else acc)
  else pure acc

/-- The step 8 comprehension over all nodes in insertion order. -/
def unattachedOf (g : Graph) : Except BuildError (List String) :=
  g.nodes.foldlM (unattachedStep g) []

/-- Step 8: when the unattached list is non-empty, add the `NO_VPC`
sentinel node and an edge from it to every unattached node. -/
def stepUnattached (st : BState) : Except BuildError (BState × List String) := do
  let u ← unattachedOf st.g
  if u.isEmpty then pure (st, u)
  else
    let st := st.addNode "NO_VPC" ⟨some "No VPC", some "lightgray", some 0⟩
    pure (u.foldl (fun st n => st.addEdge "NO_VPC" n) st, u)

/-- The builder through step 7 (before unattached detection). -/
def build7 (inp : Inventory) : Except BuildError BState := do
  let st : BState := ⟨Graph.empty, []⟩
  let st := stepVpcs st inp.vpcs
  let st ← stepSubnets st inp.subnets
  let st := stepDbs st inp.dbInstances
  let used := usedLbNames inp.services
  let st := stepLbs st inp.loadBalancers used
  stepServices (tgToVpc inp.targetGroups) st inp.services

/-- The whole builder: graph state plus the unattached list. -/
def build (inp : Inventory) : Except BuildError (BState × List String) := do
  let st ← build7 inp
  stepUnattached st

/-- The diagrams the render loop produces: one per container, in order,
plus the orphan diagram exactly when the unattached list is non-empty
(the Boolean marks the orphan diagram). -/
def diagrams (inp : Inventory) (u : List String) : List (String × Bool) :=
  inp.vpcs.map (fun v => (v.VpcId, false)) ++ (if u.isEmpty then [] else [("NO_VPC", true)])

/-- The `counts["Unattached"]` value of the legend: the unattached
comprehension re-evaluated on the final graph at render time. -/
def legendUnattachedCount (g : Graph) : Except BuildError Nat :=
  (unattachedOf g).map List.length

/-- Whether the legend gets an `Unattached` entry: the code appends one
only when `counts["Unattached"]` is non-zero. -/
def legendHasUnattachedEntry (g : Graph) : Except BuildError Bool :=
  (unattachedOf g).map (fun l => l.length != 0)

/-- The two-path resolution rule of step 5 as the specification words
it for step 7 as well: the direct name takes precedence whenever
present; otherwise the last colon-delimited component of a non-empty
ARN is split on `/` and, when that yields at least two segments, the
second-to-last segment is the name. Stated from the specification, to
be compared with `resolveStep7`. -/
def specTwoPathResolve (b : ServiceLbBinding) : Option String :=
  if truthy b.loadBalancerName then b.loadBalancerName
  else
    let tg_arn := b.targetGroupArn.getD ""
    if tg_arn.isEmpty then none
    else
      let parts := pySplit ((pySplit tg_arn ':').getLastD "") '/'
      if parts.length ≥ 2 then some (parts.getD (parts.length - 2) "")
      else none

/-- Extension of one graph by another: the second has the same edge
list with zero or more edges appended. Every builder operation extends
the edge list this way. -/
def EdgeExt (g g2 : Graph) : Prop :=
  ∃ t, g2.edges = g.edges ++ t

/-- Whether a string starts with the three characters `LB:` (the
synthetic load-balancer id shape). -/
def lbPrefixed (x : String) : Bool :=
  match x.data with
  | 'L' :: 'B' :: ':' :: _ => true
  | _ => false

/-- Every native identifier the builder ever passes to `add_node` or
`add_edge` (as opposed to the synthetic `LB:`/`CLUSTER:`/`SVC:`/`NO_VPC`
ids). -/
def nativeIds (inp : Inventory) : List String :=
  inp.vpcs.map (fun v => v.VpcId) ++
  inp.subnets.map (fun s => s.SubnetId) ++
  inp.subnets.map (fun s => s.VpcId) ++
  inp.dbInstances.map (fun db => db.DBInstanceIdentifier) ++
  inp.dbInstances.flatMap (fun db => (dbSubnets db).map (fun sn => sn.SubnetIdentifier.getD "")) ++
  inp.loadBalancers.map (fun lb => lb.VpcId) ++
  inp.targetGroups.map (fun tg => tg.VpcId)

/-- No native identifier equals the sentinel id `NO_VPC`. -/
def noNoVpcNative (inp : Inventory) : Bool :=
  !(nativeIds inp).contains "NO_VPC"

/-- No native identifier starts with `LB:`. -/
def nativesLbFree (inp : Inventory) : Bool :=
  (nativeIds inp).all (fun s => !lbPrefixed s)

/-- Where a node id of the graph built through step 7 can come from:
a container id, a subnet id or its owning container id, a database id
or one of its truthy subnet references, a used load balancer from the
collection or its container id, and per service the cluster and service
ids, on-demand `LB:` ids from truthy step 7 resolutions, and container
ids looked up through the target-group map. -/
def NodeOrigin (inp : Inventory) (k : String) : Prop :=
  (∃ v ∈ inp.vpcs, k = v.VpcId) ∨
  (∃ s ∈ inp.subnets, k = s.SubnetId ∨ k = s.VpcId) ∨
  (∃ db ∈ inp.dbInstances, k = db.DBInstanceIdentifier ∨
    ∃ sn ∈ dbSubnets db, truthy sn.SubnetIdentifier = true ∧ k = sn.SubnetIdentifier.getD "") ∨
  (∃ lb ∈ inp.loadBalancers, (usedLbNames inp.services).contains lb.LoadBalancerName = true ∧
    (k = "LB:" ++ lb.LoadBalancerName ∨ k = lb.VpcId)) ∨
  (∃ svc ∈ inp.services,
    k = "CLUSTER:" ++ clusterShortName svc ∨ k = "SVC:" ++ svc.serviceName ∨
    ∃ b ∈ svc.loadBalancers.getD [],
      (∃ n, resolveStep7 b = .ok (some n) ∧ n ≠ "" ∧ k = "LB:" ++ n) ∨
      lookupKV (tgToVpc inp.targetGroups) (b.targetGroupArn.getD "") = some k)

/-- Every node of the state has an origin in the input. -/
def OriginInv (inp : Inventory) (st : BState) : Prop :=
  ∀ k, st.g.hasNode k = true → NodeOrigin inp k

/-- The inventory in which all eight collections are empty arrays. -/
def emptyInv : Inventory := ⟨[], [], [], [], [], [], []⟩

/-- A service whose only binding carries a direct load-balancer name
but no target-group ARN, while the load-balancer collection is empty. -/
def cexInputC1 : Inventory :=
  { emptyInv with services := [⟨"s", "c", some [⟨some "foo", none⟩]⟩] }

/-- A single service with no bindings: its cluster node has in-degree
zero, so the orphan partition is non-empty. -/
def cexInputC2 : Inventory :=
  { emptyInv with services := [⟨"svc2", "cl2", none⟩] }

/-- A single database whose subnet group references a subnet id that is
never created as a subnet node. -/
def cexInputC3 : Inventory :=
  { emptyInv with dbInstances := [⟨"db1", some ⟨some [⟨some "sub-x"⟩]⟩⟩] }

/-- A single subnet whose `Tags` key is present but an empty array. -/
def cexInputC4 : Inventory :=
  { emptyInv with subnets := [⟨"s-1", "v-1", some []⟩] }

/-- A container whose native id is literally `NO_VPC`, together with a
service whose cluster node ends up unattached. -/
def cexInputC7 : Inventory :=
  { emptyInv with vpcs := [⟨"NO_VPC", none⟩], services := [⟨"s", "c", none⟩] }

/-- A service whose only binding has no direct name and a non-empty
target-group ARN containing no slash at all. -/
def cexInputC10 : Inventory :=
  { emptyInv with services := [⟨"s", "c", some [⟨none, some "abc"⟩]⟩] }

/-- A load balancer named `foo` directly in a service binding with no
target-group ARN, while the load-balancer collection is empty. -/
def cexInputC5 : Inventory :=
  { emptyInv with services := [⟨"s5", "c5", some [⟨some "foo", none⟩]⟩] }

/-- An input exercising all three parts of the amended C5: a collection
load balancer `lbA` used directly, an on-demand name `parsed` recovered
from a target-group ARN, and no binding naming `ghost`. -/
def invC5w : Inventory :=
  { emptyInv with
    vpcs := [⟨"vpcA", some "10.0.0.0/16"⟩],
    loadBalancers := [⟨"arnA", "lbA", "vpcA", none⟩],
    services := [⟨"s", "c",
      some [⟨some "lbA", some "q/r"⟩, ⟨none, some "tg/parsed/id"⟩]⟩] }

/-- The subnet ids of a database subnet list that pass the truthiness
check (the ones for which step 3 adds an inbound edge). -/
def listSubnetIds (l : List DbSubnet) : List String :=
  l.filterMap
    (fun sn => if truthy sn.SubnetIdentifier then some (sn.SubnetIdentifier.getD "") else none)

/-- One builder state extends another: no node disappears and the edge
list only grows at the end. Every builder operation extends the state. -/
def Extends (st st2 : BState) : Prop :=
  (∀ j, st.g.hasNode j = true → st2.g.hasNode j = true) ∧ EdgeExt st.g st2.g

/-! ### Lemmas about node membership -/

theorem hasNode_iff_mem_keys (g : Graph) (i : String) :
    g.hasNode i = true ↔ i ∈ g.keys := by
  simp only [Graph.hasNode, Graph.keys, List.any_eq_true, List.mem_map, beq_iff_eq]

theorem edges_addNodeAttrs (g : Graph) (i : String) (a : NodeAttrs) :
    (g.addNodeAttrs i a).edges = g.edges := by
  unfold Graph.addNodeAttrs; split <;> rfl

theorem keys_addNodeAttrs (g : Graph) (i : String) (a : NodeAttrs) :
    (g.addNodeAttrs i a).keys =
      if g.hasNode i then g.keys else g.keys ++ [i] := by
  unfold Graph.addNodeAttrs
  by_cases h : g.hasNode i = true
  · rw [if_pos h, if_pos h]
    show (g.nodes.map _).map Prod.fst = g.nodes.map Prod.fst
    rw [List.map_map]
    apply List.map_congr_left
    intro p _
    by_cases hpi : p.1 = i
    · simp [hpi]
    · simp [Function.comp, hpi]
  · rw [if_neg h, if_neg h]
    simp [Graph.keys]

theorem hasNode_addNodeAttrs (g : Graph) (i : String) (a : NodeAttrs) (j : String) :
    (g.addNodeAttrs i a).hasNode j = true ↔ (g.hasNode j = true ∨ j = i) := by
  by_cases h : g.hasNode i = true
  · rw [hasNode_iff_mem_keys, keys_addNodeAttrs, if_pos h, ← hasNode_iff_mem_keys]
    constructor
    · exact Or.inl
    · rintro (hj | rfl)
      · exact hj
      · exact h
  · rw [hasNode_iff_mem_keys, keys_addNodeAttrs, if_neg h, List.mem_append,
      ← hasNode_iff_mem_keys]
    simp

theorem edges_ensureNode (g : Graph) (i : String) :
    (g.ensureNode i).edges = g.edges := by
  unfold Graph.ensureNode; split <;> rfl

theorem keys_ensureNode (g : Graph) (i : String) :
    (g.ensureNode i).keys = if g.hasNode i then g.keys else g.keys ++ [i] := by
  unfold Graph.ensureNode
  by_cases h : g.hasNode i = true
  · rw [if_pos h, if_pos h]
  · rw [if_neg h, if_neg h]
    simp [Graph.keys]

theorem hasNode_ensureNode (g : Graph) (i j : String) :
    (g.ensureNode i).hasNode j = true ↔ (g.hasNode j = true ∨ j = i) := by
  by_cases h : g.hasNode i = true
  · rw [hasNode_iff_mem_keys, keys_ensureNode, if_pos h, ← hasNode_iff_mem_keys]
    constructor
    · exact Or.inl
    · rintro (hj | rfl)
      · exact hj
      · exact h
  · rw [hasNode_iff_mem_keys, keys_ensureNode, if_neg h, List.mem_append,
      ← hasNode_iff_mem_keys]
    simp

theorem edges_addEdge (g : Graph) (u v : String) :
    (g.addEdge u v).edges = g.edges ∨ (g.addEdge u v).edges = g.edges ++ [(u, v)] := by
  unfold Graph.addEdge
  dsimp only
  split <;> simp [edges_ensureNode]

theorem nodes_addEdge (g : Graph) (u v : String) :
    (g.addEdge u v).nodes = ((g.ensureNode u).ensureNode v).nodes := by
  unfold Graph.addEdge
  dsimp only
  split <;> rfl

theorem keys_addEdge (g : Graph) (u v : String) :
    (g.addEdge u v).keys = ((g.ensureNode u).ensureNode v).keys := by
  simp [Graph.keys, nodes_addEdge]

theorem hasNode_addEdge (g : Graph) (u v j : String) :
    (g.addEdge u v).hasNode j = true ↔ (g.hasNode j = true ∨ j = u ∨ j = v) := by
  rw [hasNode_iff_mem_keys, keys_addEdge, ← hasNode_iff_mem_keys,
    hasNode_ensureNode, hasNode_ensureNode]
  tauto

theorem hasEdge_iff (g : Graph) (u v : String) :
    g.hasEdge u v = true ↔ (u, v) ∈ g.edges := by
  simp only [Graph.hasEdge, List.any_eq_true, Bool.and_eq_true, beq_iff_eq]
  constructor
  · rintro ⟨e, he, h1, h2⟩
    have : e = (u, v) := by
      cases e; simp_all
    exact this ▸ he
  · intro h
    exact ⟨(u, v), h, rfl, rfl⟩

theorem hasEdge_ensureNode (g : Graph) (i u v : String) :
    (g.ensureNode i).hasEdge u v = g.hasEdge u v := by
  unfold Graph.hasEdge
  rw [edges_ensureNode]

theorem hasEdge_addEdge_self (g : Graph) (u v : String) :
    (g.addEdge u v).hasEdge u v = true := by
  unfold Graph.addEdge
  dsimp only
  split
  · next h => exact h
  · rw [hasEdge_iff]
    simp

theorem mem_edges_addEdge (g : Graph) (u v : String) {e : String × String}
    (h : e ∈ g.edges) : e ∈ (g.addEdge u v).edges := by
  rcases edges_addEdge g u v with h2 | h2 <;> rw [h2]
  · exact h
  · exact List.mem_append_left _ h

/-! ### Lemmas about node attributes -/

theorem find?_map_replace {β : Type} (l : List (String × β)) (i : String) (a : β)
    (h : l.any (fun p => p.1 == i) = true) :
    (l.map (fun p => if p.1 == i then (i, a) else p)).find? (fun p => p.1 == i) =
      some (i, a) := by
  induction l with
  | nil => simp at h
  | cons p l ih =>
    by_cases hpi : p.1 = i
    · rw [List.map_cons, if_pos (by simp [hpi]), List.find?_cons_of_pos _ (by simp)]
    · rw [List.map_cons, if_neg (by simp [hpi]), List.find?_cons_of_neg _ (by simp [hpi])]
      apply ih
      rw [List.any_cons, Bool.or_eq_true] at h
      rcases h with h1 | h1
      · exact absurd (by simpa using h1) hpi
      · exact h1

theorem find?_map_replace_ne {β : Type} (l : List (String × β)) (i : String) (a : β)
    (j : String) (hji : j ≠ i) :
    (l.map (fun p => if p.1 == i then (i, a) else p)).find? (fun p => p.1 == j) =
      l.find? (fun p => p.1 == j) := by
  induction l with
  | nil => rfl
  | cons p l ih =>
    by_cases hpi : p.1 = i
    · rw [List.map_cons, if_pos (by simp [hpi]),
        List.find?_cons_of_neg _ (by simp only [beq_iff_eq]; exact Ne.symm hji),
        List.find?_cons_of_neg _ (by simp only [hpi, beq_iff_eq]; exact Ne.symm hji)]
      exact ih
    · rw [List.map_cons, if_neg (by simp [hpi])]
      by_cases hpj : p.1 = j
      · rw [List.find?_cons_of_pos _ (by simp [hpj]), List.find?_cons_of_pos _ (by simp [hpj])]
      · rw [List.find?_cons_of_neg _ (by simp [hpj]), List.find?_cons_of_neg _ (by simp [hpj])]
        exact ih

theorem find?_key_eq_none (g : Graph) (i : String) (h : ¬g.hasNode i = true) :
    g.nodes.find? (fun p => p.1 == i) = none := by
  rw [List.find?_eq_none]
  intro x hx hpx
  exact h (by unfold Graph.hasNode; rw [List.any_eq_true]; exact ⟨x, hx, hpx⟩)

theorem attrsOf_addNodeAttrs_self (g : Graph) (i : String) (a : NodeAttrs) :
    (g.addNodeAttrs i a).attrsOf i = some a := by
  unfold Graph.addNodeAttrs Graph.attrsOf
  by_cases h : g.hasNode i = true
  · rw [if_pos h]
    show ((g.nodes.map _).find? _).map Prod.snd = _
    rw [find?_map_replace g.nodes i a h]
    rfl
  · rw [if_neg h]
    show (((g.nodes ++ [(i, a)]).find? _)).map Prod.snd = _
    rw [List.find?_append, find?_key_eq_none g i h]
    simp

theorem attrsOf_addNodeAttrs_ne (g : Graph) (i : String) (a : NodeAttrs)
    (j : String) (hji : j ≠ i) :
    (g.addNodeAttrs i a).attrsOf j = g.attrsOf j := by
  unfold Graph.addNodeAttrs Graph.attrsOf
  by_cases h : g.hasNode i = true
  · rw [if_pos h]
    show ((g.nodes.map _).find? _).map Prod.snd = _
    rw [find?_map_replace_ne g.nodes i a j hji]
  · rw [if_neg h]
    show (((g.nodes ++ [(i, a)]).find? _)).map Prod.snd = _
    rw [List.find?_append]
    have h2 : List.find? (fun p => p.1 == j) [(i, a)] = none := by
      rw [List.find?_eq_none]
      intro x hx
      simp only [List.mem_singleton] at hx
      subst hx
      simp only [beq_iff_eq]
      exact Ne.symm hji
    rw [h2]
    simp

theorem attrsOf_ensureNode_ne (g : Graph) (i j : String) (hji : j ≠ i) :
    (g.ensureNode i).attrsOf j = g.attrsOf j := by
  unfold Graph.ensureNode Graph.attrsOf
  by_cases h : g.hasNode i = true
  · rw [if_pos h]
  · rw [if_neg h]
    show (((g.nodes ++ [(i, NodeAttrs.empty)]).find? _)).map Prod.snd = _
    rw [List.find?_append]
    have h2 : List.find? (fun p => p.1 == j) [(i, NodeAttrs.empty)] = none := by
      rw [List.find?_eq_none]
      intro x hx
      simp only [List.mem_singleton] at hx
      subst hx
      simp only [beq_iff_eq]
      exact Ne.symm hji
    rw [h2]
    simp

theorem attrsOf_ensureNode_of_hasNode (g : Graph) (i j : String)
    (h : g.hasNode j = true) :
    (g.ensureNode i).attrsOf j = g.attrsOf j := by
  by_cases hji : j = i
  · subst hji
    unfold Graph.ensureNode
    rw [if_pos h]
  · exact attrsOf_ensureNode_ne g i j hji

theorem attrsOf_addEdge_of_hasNode (g : Graph) (u v j : String)
    (h : g.hasNode j = true) :
    (g.addEdge u v).attrsOf j = g.attrsOf j := by
  have hu : (g.ensureNode u).hasNode j = true := (hasNode_ensureNode g u j).mpr (Or.inl h)
  have h1 : ((g.ensureNode u).ensureNode v).attrsOf j = g.attrsOf j := by
    rw [attrsOf_ensureNode_of_hasNode _ v j hu, attrsOf_ensureNode_of_hasNode _ u j h]
  unfold Graph.addEdge
  dsimp only
  split
  · exact h1
  · exact h1

theorem labelOf_addNodeAttrs_self (g : Graph) (i : String) (a : NodeAttrs) :
    (g.addNodeAttrs i a).labelOf i = a.label := by
  unfold Graph.labelOf
  rw [attrsOf_addNodeAttrs_self]
  rfl

theorem labelOf_addNodeAttrs_ne (g : Graph) (i : String) (a : NodeAttrs)
    (j : String) (hji : j ≠ i) :
    (g.addNodeAttrs i a).labelOf j = g.labelOf j := by
  unfold Graph.labelOf
  rw [attrsOf_addNodeAttrs_ne g i a j hji]

theorem labelOf_addEdge_of_hasNode (g : Graph) (u v j : String)
    (h : g.hasNode j = true) :
    (g.addEdge u v).labelOf j = g.labelOf j := by
  unfold Graph.labelOf
  rw [attrsOf_addEdge_of_hasNode g u v j h]

/-! ### Edge-extension and degree lemmas -/

theorem edgeExt_refl (g : Graph) : EdgeExt g g := ⟨[], by simp⟩

theorem edgeExt_trans {g1 g2 g3 : Graph} (h1 : EdgeExt g1 g2) (h2 : EdgeExt g2 g3) :
    EdgeExt g1 g3 := by
  rcases h1 with ⟨t1, ht1⟩
  rcases h2 with ⟨t2, ht2⟩
  exact ⟨t1 ++ t2, by rw [ht2, ht1, List.append_assoc]⟩

theorem edgeExt_addNodeAttrs (g : Graph) (i : String) (a : NodeAttrs) :
    EdgeExt g (g.addNodeAttrs i a) := ⟨[], by rw [edges_addNodeAttrs]; simp⟩

theorem edgeExt_addEdge (g : Graph) (u v : String) : EdgeExt g (g.addEdge u v) := by
  rcases edges_addEdge g u v with h | h
  · exact ⟨[], by rw [h]; simp⟩
  · exact ⟨[(u, v)], h⟩

theorem edgeExt_bstate_addNode (st : BState) (i : String) (a : NodeAttrs) :
    EdgeExt st.g (st.addNode i a).g := edgeExt_addNodeAttrs st.g i a

theorem edgeExt_bstate_addEdge (st : BState) (u v : String) :
    EdgeExt st.g (st.addEdge u v).g := edgeExt_addEdge st.g u v

theorem inDegree_zero_of_ext {g g2 : Graph} {i : String} (h : EdgeExt g g2)
    (h0 : g2.inDegree i = 0) : g.inDegree i = 0 := by
  rcases h with ⟨t, ht⟩
  unfold Graph.inDegree at *
  rw [ht, List.filter_append, List.length_append] at h0
  omega

theorem inDegree_ne_zero_of_hasEdge {g : Graph} {u v : String}
    (h : g.hasEdge u v = true) : g.inDegree v ≠ 0 := by
  rw [hasEdge_iff] at h
  unfold Graph.inDegree
  intro h0
  rw [List.length_eq_zero] at h0
  have : (u, v) ∈ g.edges.filter (fun e => e.2 == v) :=
    List.mem_filter.mpr ⟨h, by simp⟩
  rw [h0] at this
  simp at this

theorem hasEdge_of_ext {g g2 : Graph} {u v : String} (h : EdgeExt g g2)
    (he : g.hasEdge u v = true) : g2.hasEdge u v = true := by
  rw [hasEdge_iff] at *
  rcases h with ⟨t, ht⟩
  rw [ht]
  exact List.mem_append_left _ he

/-! ### Uniqueness of node ids is preserved by the operations -/

theorem keysNodup_addNodeAttrs (g : Graph) (i : String) (a : NodeAttrs)
    (h : g.keys.Nodup) : (g.addNodeAttrs i a).keys.Nodup := by
  rw [keys_addNodeAttrs]
  split
  · exact h
  · next hn =>
    refine List.Nodup.append h (List.nodup_singleton i) ?_
    intro x hx hxi
    simp only [List.mem_singleton] at hxi
    subst hxi
    exact hn ((hasNode_iff_mem_keys g x).mpr hx)

theorem keysNodup_ensureNode (g : Graph) (i : String)
    (h : g.keys.Nodup) : (g.ensureNode i).keys.Nodup := by
  rw [keys_ensureNode]
  split
  · exact h
  · next hn =>
    refine List.Nodup.append h (List.nodup_singleton i) ?_
    intro x hx hxi
    simp only [List.mem_singleton] at hxi
    subst hxi
    exact hn ((hasNode_iff_mem_keys g x).mpr hx)

theorem keysNodup_addEdge (g : Graph) (u v : String)
    (h : g.keys.Nodup) : (g.addEdge u v).keys.Nodup := by
  rw [keys_addEdge]
  exact keysNodup_ensureNode _ v (keysNodup_ensureNode _ u h)

/-! ### Generic fold lemmas -/

theorem foldl_preserve {σ α : Type _} (f : σ → α → σ) (P : σ → Prop) (l : List α) :
    (∀ s x, x ∈ l → P s → P (f s x)) → ∀ s, P s → P (l.foldl f s) := by
  induction l with
  | nil => intro _ s h; simpa using h
  | cons x xs ih =>
    intro hf s h
    rw [List.foldl_cons]
    exact ih (fun s y hy => hf s y (List.mem_cons_of_mem _ hy)) _
      (hf s x (List.mem_cons_self _ _) h)

theorem foldl_establish {σ α : Type _} (f : σ → α → σ) (P : σ → Prop) (l : List α)
    (x0 : α) :
    x0 ∈ l → (∀ s, P (f s x0)) → (∀ s x, x ∈ l → P s → P (f s x)) →
    ∀ s, P (l.foldl f s) := by
  induction l with
  | nil => intro hx; cases hx
  | cons x xs ih =>
    intro hx est pres s
    rw [List.foldl_cons]
    rcases List.mem_cons.mp hx with rfl | hx2
    · exact foldl_preserve f P xs
        (fun s y hy => pres s y (List.mem_cons_of_mem _ hy)) _ (est s)
    · exact ih hx2 est (fun s y hy => pres s y (List.mem_cons_of_mem _ hy)) _

theorem exceptFoldlM_ok_preserve {σ α ε : Type _} {f : σ → α → Except ε σ}
    {P : σ → Prop} (l : List α) :
    (∀ s x s2, x ∈ l → f s x = .ok s2 → P s → P s2) →
    ∀ s s2, l.foldlM f s = .ok s2 → P s → P s2 := by
  induction l with
  | nil =>
    intro _ s s2 h hP
    rw [List.foldlM_nil] at h
    cases h
    exact hP
  | cons x xs ih =>
    intro hf s s2 h hP
    rw [List.foldlM_cons] at h
    cases hfx : f s x with
    | error e =>
      rw [hfx] at h
      exact Except.noConfusion (h : (Except.error e : Except ε σ) = .ok s2)
    | ok s1 =>
      rw [hfx] at h
      exact ih (fun s y s2 hy => hf s y s2 (List.mem_cons_of_mem _ hy)) s1 s2 h
        (hf s x s1 (List.mem_cons_self _ _) hfx hP)

theorem exceptFoldlM_ok_establish {σ α ε : Type _} {f : σ → α → Except ε σ}
    {P : σ → Prop} (l : List α) (x0 : α) :
    x0 ∈ l →
    (∀ s s2, f s x0 = .ok s2 → P s2) →
    (∀ s x s2, x ∈ l → f s x = .ok s2 → P s → P s2) →
    ∀ s s2, l.foldlM f s = .ok s2 → P s2 := by
  induction l with
  | nil => intro hx; cases hx
  | cons x xs ih =>
    intro hx est pres s s2 h
    rw [List.foldlM_cons] at h
    cases hfx : f s x with
    | error e =>
      rw [hfx] at h
      exact Except.noConfusion (h : (Except.error e : Except ε σ) = .ok s2)
    | ok s1 =>
      rw [hfx] at h
      rcases List.mem_cons.mp hx with rfl | hx2
      · exact exceptFoldlM_ok_preserve xs
          (fun s y s2 hy => pres s y s2 (List.mem_cons_of_mem _ hy)) s1 s2 h
          (est s s1 hfx)
      · exact ih hx2 est (fun s y s2 hy => pres s y s2 (List.mem_cons_of_mem _ hy)) s1 s2 h

/-! ### The builder steps extend the state -/

theorem extends_refl (st : BState) : Extends st st :=
  ⟨fun _ h => h, edgeExt_refl st.g⟩

theorem extends_trans {st1 st2 st3 : BState} (h1 : Extends st1 st2)
    (h2 : Extends st2 st3) : Extends st1 st3 :=
  ⟨fun j hj => h2.1 j (h1.1 j hj), edgeExt_trans h1.2 h2.2⟩

theorem extends_addNode (st : BState) (i : String) (a : NodeAttrs) :
    Extends st (st.addNode i a) :=
  ⟨fun j hj => (hasNode_addNodeAttrs st.g i a j).mpr (Or.inl hj),
   edgeExt_bstate_addNode st i a⟩

theorem extends_addEdge (st : BState) (u v : String) :
    Extends st (st.addEdge u v) :=
  ⟨fun j hj => (hasNode_addEdge st.g u v j).mpr (Or.inl hj),
   edgeExt_bstate_addEdge st u v⟩

theorem stepVpcs_extends (st : BState) (vs : List Vpc) :
    Extends st (stepVpcs st vs) := by
  unfold stepVpcs
  exact foldl_preserve _ (Extends st) vs
    (fun s x _ hP => extends_trans hP (extends_addNode s _ _)) st (extends_refl st)

theorem stepSubnets_extends (st : BState) (subs : List Subnet) (st2 : BState)
    (h : stepSubnets st subs = .ok st2) : Extends st st2 := by
  unfold stepSubnets at h
  refine exceptFoldlM_ok_preserve subs ?_ st st2 h (extends_refl st)
  intro s x s2 _ hfx hP
  cases hsn : subnetName x with
  | error e =>
    rw [hsn] at hfx
    exact Except.noConfusion (hfx : (Except.error e : Except BuildError BState) = .ok s2)
  | ok nm =>
    rw [hsn] at hfx
    have h2 : s2 = (s.addNode x.SubnetId
        ⟨some ("Subnet\n" ++ nm), some "lightgreen", some 1⟩).addEdge x.VpcId x.SubnetId := by
      cases hfx
      rfl
    rw [h2]
    exact extends_trans hP (extends_trans (extends_addNode s _ _) (extends_addEdge _ _ _))

theorem stepDb_extends (st : BState) (db : DbInstance) :
    Extends st (stepDb st db) := by
  unfold stepDb
  dsimp only
  refine extends_trans
    (extends_addNode st db.DBInstanceIdentifier ⟨some "RDS", some "plum", some 0⟩) ?_
  refine foldl_preserve _ (Extends _) (dbSubnets db) ?_ _ (extends_refl _)
  intro s x _ hP
  by_cases hx : truthy x.SubnetIdentifier = true
  · rw [if_pos hx]
    exact extends_trans hP (extends_addEdge s _ _)
  · rw [if_neg hx]
    exact hP

theorem stepDbs_extends (st : BState) (dbs : List DbInstance) :
    Extends st (stepDbs st dbs) := by
  unfold stepDbs
  exact foldl_preserve _ (Extends st) dbs
    (fun s x _ hP => extends_trans hP (stepDb_extends s x)) st (extends_refl st)

theorem stepLbs_extends (st : BState) (lbs : List LoadBalancerRec) (used : List String) :
    Extends st (stepLbs st lbs used) := by
  unfold stepLbs
  refine foldl_preserve _ (Extends st) lbs ?_ st (extends_refl st)
  intro s x _ hP
  by_cases hx : used.contains x.LoadBalancerName = true
  · rw [if_pos hx]
    exact extends_trans hP (extends_trans (extends_addNode s _ _) (extends_addEdge _ _ _))
  · rw [if_neg hx]
    exact hP

theorem processBinding_ok_state (m : List (String × String)) (sid : String)
    (st : BState) (b : ServiceLbBinding) (st2 : BState)
    (h : processBinding m sid st b = .ok st2) :
    ∃ nm, resolveStep7 b = .ok nm ∧
      st2 =
        (let stA :=
          if truthy nm then
            let lb_id := "LB:" ++ nm.getD ""
            let stB :=
              if st.g.hasNode lb_id then st
              else st.addNode lb_id ⟨some "Load Balancer", some "lightslategray", some 3⟩
            stB.addEdge sid lb_id
          else st
        if !(b.targetGroupArn.getD "").isEmpty then
          match lookupKV m (b.targetGroupArn.getD "") with
          | some vpc => stA.addEdge vpc sid
          | none => stA
        else stA) := by
  unfold processBinding at h
  cases hr : resolveStep7 b with
  | error e =>
    rw [hr] at h
    exact Except.noConfusion (h : (Except.error e : Except BuildError BState) = .ok st2)
  | ok nm =>
    rw [hr] at h
    refine ⟨nm, rfl, ?_⟩
    have h2 := (Except.ok.injEq .. ▸ h : _ = st2)
    exact h2.symm

theorem processBinding_extends (m : List (String × String)) (sid : String)
    (st : BState) (b : ServiceLbBinding) (st2 : BState)
    (h : processBinding m sid st b = .ok st2) : Extends st st2 := by
  rcases processBinding_ok_state m sid st b st2 h with ⟨nm, _, h2⟩
  subst h2
  dsimp only
  have hA : Extends st
      (if truthy nm then
        let lb_id := "LB:" ++ nm.getD ""
        let stB :=
          if st.g.hasNode lb_id then st
          else st.addNode lb_id ⟨some "Load Balancer", some "lightslategray", some 3⟩
        stB.addEdge sid lb_id
      else st) := by
    by_cases ht : truthy nm = true
    · rw [if_pos ht]
      dsimp only
      by_cases hh : st.g.hasNode ("LB:" ++ nm.getD "") = true
      · rw [if_pos hh]
        exact extends_addEdge st _ _
      · rw [if_neg hh]
        exact extends_trans (extends_addNode st _ _) (extends_addEdge _ _ _)
    · rw [if_neg ht]
      exact extends_refl st
  refine extends_trans hA ?_
  by_cases harn : (!(b.targetGroupArn.getD "").isEmpty) = true
  · rw [if_pos harn]
    cases hlk : lookupKV m (b.targetGroupArn.getD "") with
    | some vpc => exact extends_addEdge _ _ _
    | none => exact extends_refl _
  · rw [if_neg harn]
    exact extends_refl _

theorem stepService_extends (m : List (String × String)) (st : BState)
    (svc : EcsService) (st2 : BState)
    (h : stepService m st svc = .ok st2) : Extends st st2 := by
  unfold stepService at h
  refine extends_trans
    (extends_trans (extends_addNode st _ _)
      (extends_trans (extends_addNode _ _ _) (extends_addEdge _ _ _)))
    (exceptFoldlM_ok_preserve _ ?_ _ st2 h (extends_refl _))
  intro s x s2 _ hfx hP
  exact extends_trans hP (processBinding_extends m _ s x s2 hfx)

theorem stepServices_extends (m : List (String × String)) (st : BState)
    (svcs : List EcsService) (st2 : BState)
    (h : stepServices m st svcs = .ok st2) : Extends st st2 := by
  unfold stepServices at h
  refine exceptFoldlM_ok_preserve svcs ?_ st st2 h (extends_refl st)
  intro s x s2 _ hfx hP
  exact extends_trans hP (stepService_extends m s x s2 hfx)

theorem stepUnattached_extends (st : BState) (st2 : BState) (u : List String)
    (h : stepUnattached st = .ok (st2, u)) : Extends st st2 := by
  unfold stepUnattached at h
  cases hu : unattachedOf st.g with
  | error e =>
    rw [hu] at h
    exact Except.noConfusion
      (h : (Except.error e : Except BuildError (BState × List String)) = .ok (st2, u))
  | ok u0 =>
    rw [hu] at h
    have h' : (if u0.isEmpty = true then
          (pure (st, u0) : Except BuildError (BState × List String))
        else
          pure (u0.foldl (fun st n => st.addEdge "NO_VPC" n)
            (st.addNode "NO_VPC" ⟨some "No VPC", some "lightgray", some 0⟩), u0)) =
        .ok (st2, u) := h
    by_cases hne : u0.isEmpty = true
    · rw [if_pos hne] at h'
      have h'' : (Except.ok (st, u0) : Except BuildError (BState × List String)) =
          .ok (st2, u) := h'
      injection h'' with h2
      injection h2 with hA hB
      subst hA
      exact extends_refl st
    · rw [if_neg hne] at h'
      have h'' : (Except.ok (u0.foldl (fun st n => st.addEdge "NO_VPC" n)
            (st.addNode "NO_VPC" ⟨some "No VPC", some "lightgray", some 0⟩), u0) :
          Except BuildError (BState × List String)) = .ok (st2, u) := h'
      injection h'' with h2
      injection h2 with hA hB
      rw [← hA]
      refine extends_trans
        (extends_addNode st "NO_VPC" ⟨some "No VPC", some "lightgray", some 0⟩) ?_
      exact foldl_preserve _ (Extends _) u0
        (fun s x _ hP => extends_trans hP (extends_addEdge s _ _)) _ (extends_refl _)

/-! ### Properties closed under the two primitive operations hold of
every builder result -/

theorem processBinding_closed (P : BState → Prop)
    (hN : ∀ s i a, P s → P (BState.addNode s i a))
    (hE : ∀ s u v, P s → P (BState.addEdge s u v))
    (m : List (String × String)) (sid : String) (st : BState)
    (b : ServiceLbBinding) (st2 : BState)
    (h : processBinding m sid st b = .ok st2) (hP : P st) : P st2 := by
  rcases processBinding_ok_state m sid st b st2 h with ⟨nm, _, h2⟩
  subst h2
  dsimp only
  have hA : P
      (if truthy nm then
        let lb_id := "LB:" ++ nm.getD ""
        let stB :=
          if st.g.hasNode lb_id then st
          else st.addNode lb_id ⟨some "Load Balancer", some "lightslategray", some 3⟩
        stB.addEdge sid lb_id
      else st) := by
    by_cases ht : truthy nm = true
    · rw [if_pos ht]
      dsimp only
      by_cases hh : st.g.hasNode ("LB:" ++ nm.getD "") = true
      · rw [if_pos hh]
        exact hE _ _ _ hP
      · rw [if_neg hh]
        exact hE _ _ _ (hN _ _ _ hP)
    · rw [if_neg ht]
      exact hP
  by_cases harn : (!(b.targetGroupArn.getD "").isEmpty) = true
  · rw [if_pos harn]
    cases hlk : lookupKV m (b.targetGroupArn.getD "") with
    | some vpc => exact hE _ _ _ hA
    | none => exact hA
  · rw [if_neg harn]
    exact hA

theorem stepService_closed (P : BState → Prop)
    (hN : ∀ s i a, P s → P (BState.addNode s i a))
    (hE : ∀ s u v, P s → P (BState.addEdge s u v))
    (m : List (String × String)) (st : BState) (svc : EcsService) (st2 : BState)
    (h : stepService m st svc = .ok st2) (hP : P st) : P st2 := by
  unfold stepService at h
  refine exceptFoldlM_ok_preserve _ ?_ _ st2 h (hE _ _ _ (hN _ _ _ (hN _ _ _ hP)))
  intro s x s2 _ hfx hP2
  exact processBinding_closed P hN hE m _ s x s2 hfx hP2

theorem stepVpcs_closed (P : BState → Prop)
    (hN : ∀ s i a, P s → P (BState.addNode s i a))
    (st : BState) (vs : List Vpc) (hP : P st) : P (stepVpcs st vs) := by
  unfold stepVpcs
  exact foldl_preserve _ P vs (fun s x _ h => hN _ _ _ h) st hP

theorem stepSubnets_closed (P : BState → Prop)
    (hN : ∀ s i a, P s → P (BState.addNode s i a))
    (hE : ∀ s u v, P s → P (BState.addEdge s u v))
    (st : BState) (subs : List Subnet) (st2 : BState)
    (h : stepSubnets st subs = .ok st2) (hP : P st) : P st2 := by
  unfold stepSubnets at h
  refine exceptFoldlM_ok_preserve subs ?_ st st2 h hP
  intro s x s2 _ hfx hP2
  cases hsn : subnetName x with
  | error e =>
    rw [hsn] at hfx
    exact Except.noConfusion (hfx : (Except.error e : Except BuildError BState) = .ok s2)
  | ok nm =>
    rw [hsn] at hfx
    have h2 : s2 = (s.addNode x.SubnetId
        ⟨some ("Subnet\n" ++ nm), some "lightgreen", some 1⟩).addEdge x.VpcId x.SubnetId := by
      cases hfx
      rfl
    rw [h2]
    exact hE _ _ _ (hN _ _ _ hP2)

theorem stepDb_closed (P : BState → Prop)
    (hN : ∀ s i a, P s → P (BState.addNode s i a))
    (hE : ∀ s u v, P s → P (BState.addEdge s u v))
    (st : BState) (db : DbInstance) (hP : P st) : P (stepDb st db) := by
  unfold stepDb
  dsimp only
  refine foldl_preserve _ P (dbSubnets db) ?_ _ (hN _ _ _ hP)
  intro s x _ hP2
  by_cases hx : truthy x.SubnetIdentifier = true
  · rw [if_pos hx]
    exact hE _ _ _ hP2
  · rw [if_neg hx]
    exact hP2

theorem stepDbs_closed (P : BState → Prop)
    (hN : ∀ s i a, P s → P (BState.addNode s i a))
    (hE : ∀ s u v, P s → P (BState.addEdge s u v))
    (st : BState) (dbs : List DbInstance) (hP : P st) : P (stepDbs st dbs) := by
  unfold stepDbs
  exact foldl_preserve _ P dbs (fun s x _ h => stepDb_closed P hN hE s x h) st hP

theorem stepLbs_closed (P : BState → Prop)
    (hN : ∀ s i a, P s → P (BState.addNode s i a))
    (hE : ∀ s u v, P s → P (BState.addEdge s u v))
    (st : BState) (lbs : List LoadBalancerRec) (used : List String)
    (hP : P st) : P (stepLbs st lbs used) := by
  unfold stepLbs
  refine foldl_preserve _ P lbs ?_ st hP
  intro s x _ hP2
  by_cases hx : used.contains x.LoadBalancerName = true
  · rw [if_pos hx]
    exact hE _ _ _ (hN _ _ _ hP2)
  · rw [if_neg hx]
    exact hP2

theorem stepServices_closed (P : BState → Prop)
    (hN : ∀ s i a, P s → P (BState.addNode s i a))
    (hE : ∀ s u v, P s → P (BState.addEdge s u v))
    (m : List (String × String)) (st : BState) (svcs : List EcsService) (st2 : BState)
    (h : stepServices m st svcs = .ok st2) (hP : P st) : P st2 := by
  unfold stepServices at h
  refine exceptFoldlM_ok_preserve svcs ?_ st st2 h hP
  intro s x s2 _ hfx hP2
  exact stepService_closed P hN hE m s x s2 hfx hP2

theorem stepUnattached_ok (st : BState) (st2 : BState) (u : List String)
    (h : stepUnattached st = .ok (st2, u)) :
    unattachedOf st.g = .ok u ∧
      ((u = [] ∧ st2 = st) ∨
       (u ≠ [] ∧ st2 = u.foldl (fun s n => s.addEdge "NO_VPC" n)
          (st.addNode "NO_VPC" ⟨some "No VPC", some "lightgray", some 0⟩))) := by
  unfold stepUnattached at h
  cases hu : unattachedOf st.g with
  | error e =>
    rw [hu] at h
    exact Except.noConfusion
      (h : (Except.error e : Except BuildError (BState × List String)) = .ok (st2, u))
  | ok u0 =>
    rw [hu] at h
    have h' : (if u0.isEmpty = true then
          (pure (st, u0) : Except BuildError (BState × List String))
        else
          pure (u0.foldl (fun st n => st.addEdge "NO_VPC" n)
            (st.addNode "NO_VPC" ⟨some "No VPC", some "lightgray", some 0⟩), u0)) =
        .ok (st2, u) := h
    by_cases hne : u0.isEmpty = true
    · rw [if_pos hne] at h'
      have h'' : (Except.ok (st, u0) : Except BuildError (BState × List String)) =
          .ok (st2, u) := h'
      injection h'' with h2
      injection h2 with hA hB
      subst hB
      rw [List.isEmpty_iff] at hne
      exact ⟨rfl, Or.inl ⟨hne, hA.symm⟩⟩
    · rw [if_neg hne] at h'
      have h'' : (Except.ok (u0.foldl (fun st n => st.addEdge "NO_VPC" n)
            (st.addNode "NO_VPC" ⟨some "No VPC", some "lightgray", some 0⟩), u0) :
          Except BuildError (BState × List String)) = .ok (st2, u) := h'
      injection h'' with h2
      injection h2 with hA hB
      subst hB
      rw [List.isEmpty_iff] at hne
      exact ⟨rfl, Or.inr ⟨hne, hA.symm⟩⟩

theorem stepUnattached_closed (P : BState → Prop)
    (hN : ∀ s i a, P s → P (BState.addNode s i a))
    (hE : ∀ s u v, P s → P (BState.addEdge s u v))
    (st : BState) (st2 : BState) (u : List String)
    (h : stepUnattached st = .ok (st2, u)) (hP : P st) : P st2 := by
  rcases (stepUnattached_ok st st2 u h).2 with ⟨_, h2⟩ | ⟨_, h2⟩
  · rw [h2]; exact hP
  · rw [h2]
    exact foldl_preserve _ P u (fun s x _ h3 => hE _ _ _ h3) _ (hN _ _ _ hP)

theorem build7_ok_decomp (inp : Inventory) (st7 : BState)
    (h : build7 inp = .ok st7) :
    ∃ stA, stepSubnets (stepVpcs ⟨Graph.empty, []⟩ inp.vpcs) inp.subnets = .ok stA ∧
      stepServices (tgToVpc inp.targetGroups)
        (stepLbs (stepDbs stA inp.dbInstances) inp.loadBalancers
          (usedLbNames inp.services)) inp.services = .ok st7 := by
  unfold build7 at h
  have h' : (stepSubnets (stepVpcs ⟨Graph.empty, []⟩ inp.vpcs) inp.subnets >>= fun st =>
      stepServices (tgToVpc inp.targetGroups)
        (stepLbs (stepDbs st inp.dbInstances) inp.loadBalancers (usedLbNames inp.services))
        inp.services) = .ok st7 := h
  clear h
  cases hs : stepSubnets (stepVpcs ⟨Graph.empty, []⟩ inp.vpcs) inp.subnets with
  | error e =>
    rw [hs] at h'
    exact Except.noConfusion (h' : (Except.error e : Except BuildError BState) = .ok st7)
  | ok stA =>
    rw [hs] at h'
    exact ⟨stA, rfl, h'⟩

theorem build_ok_decomp (inp : Inventory) (st : BState) (u : List String)
    (h : build inp = .ok (st, u)) :
    ∃ st7, build7 inp = .ok st7 ∧ stepUnattached st7 = .ok (st, u) := by
  unfold build at h
  cases h7 : build7 inp with
  | error e =>
    rw [h7] at h
    exact Except.noConfusion
      (h : (Except.error e : Except BuildError (BState × List String)) = .ok (st, u))
  | ok st7 =>
    rw [h7] at h
    exact ⟨st7, rfl, h⟩

theorem build7_closed (P : BState → Prop)
    (hN : ∀ s i a, P s → P (BState.addNode s i a))
    (hE : ∀ s u v, P s → P (BState.addEdge s u v))
    (inp : Inventory) (st7 : BState) (h : build7 inp = .ok st7)
    (hP : P ⟨Graph.empty, []⟩) : P st7 := by
  rcases build7_ok_decomp inp st7 h with ⟨stA, hA, hB⟩
  refine stepServices_closed P hN hE _ _ _ _ hB ?_
  refine stepLbs_closed P hN hE _ _ _ ?_
  refine stepDbs_closed P hN hE _ _ ?_
  exact stepSubnets_closed P hN hE _ _ _ hA (stepVpcs_closed P hN _ _ hP)

theorem build_closed (P : BState → Prop)
    (hN : ∀ s i a, P s → P (BState.addNode s i a))
    (hE : ∀ s u v, P s → P (BState.addEdge s u v))
    (inp : Inventory) (st : BState) (u : List String)
    (h : build inp = .ok (st, u)) (hP : P ⟨Graph.empty, []⟩) : P st := by
  rcases build_ok_decomp inp st u h with ⟨st7, h7, hu⟩
  exact stepUnattached_closed P hN hE st7 st u hu (build7_closed P hN hE inp st7 h7 hP)

theorem build_keys_nodup (inp : Inventory) (st : BState) (u : List String)
    (h : build inp = .ok (st, u)) : st.g.keys.Nodup := by
  refine build_closed (fun s => s.g.keys.Nodup) ?_ ?_ inp st u h ?_
  · intro s i a hs
    exact keysNodup_addNodeAttrs s.g i a hs
  · intro s x y hs
    exact keysNodup_addEdge s.g x y hs
  · simp [Graph.empty, Graph.keys]

/-! ### Characterization of the unattached comprehension -/

theorem unattachedStep_cases (g : Graph) (acc : List String) (p : String × NodeAttrs) :
    (g.inDegree p.1 = 0 ∧ g.labelOf p.1 = none ∧
      unattachedStep g acc p = .error .keyError) ∨
    (g.inDegree p.1 = 0 ∧ ∃ lab, g.labelOf p.1 = some lab ∧
      unattachedStep g acc p =
        .ok (if alwaysContainedLabels.contains lab then acc ++ [p.1] else acc)) ∨
    (g.inDegree p.1 ≠ 0 ∧ unattachedStep g acc p = .ok acc) := by
  unfold unattachedStep
  by_cases hdeg : g.inDegree p.1 = 0
  · rw [if_pos (by simpa using hdeg)]
    cases hlab : g.labelOf p.1 with
    | none => exact Or.inl ⟨hdeg, rfl, rfl⟩
    | some lab => exact Or.inr (Or.inl ⟨hdeg, lab, rfl, rfl⟩)
  · rw [if_neg (by simpa using hdeg)]
    exact Or.inr (Or.inr ⟨hdeg, rfl⟩)

theorem unattachedAux (g : Graph) (l : List (String × NodeAttrs)) :
    ∀ (acc res : List String), l.foldlM (unattachedStep g) acc = .ok res →
      ((∀ p ∈ l, g.inDegree p.1 = 0 →
          ∃ lab, g.labelOf p.1 = some lab ∧
            (alwaysContainedLabels.contains lab = true → p.1 ∈ res)) ∧
       (∀ n, n ∈ res ↔ (n ∈ acc ∨ ∃ p ∈ l, p.1 = n ∧ g.inDegree p.1 = 0 ∧
          ∃ lab, g.labelOf p.1 = some lab ∧
            alwaysContainedLabels.contains lab = true))) := by
  induction l with
  | nil =>
    intro acc res h
    rw [List.foldlM_nil] at h
    have h' : (Except.ok acc : Except BuildError (List String)) = .ok res := h
    injection h' with h2
    subst h2
    constructor
    · intro p hp
      cases hp
    · intro n
      simp
  | cons p l ih =>
    intro acc res h
    rw [List.foldlM_cons] at h
    rcases unattachedStep_cases g acc p with ⟨hdeg, hlab, hstep⟩ |
      ⟨hdeg, lab, hlab, hstep⟩ | ⟨hdeg, hstep⟩
    · rw [hstep] at h
      exact Except.noConfusion
        (h : (Except.error BuildError.keyError : Except BuildError (List String)) = .ok res)
    · rw [hstep] at h
      have h2 : l.foldlM (unattachedStep g)
          (if alwaysContainedLabels.contains lab then acc ++ [p.1] else acc) = .ok res := h
      obtain ⟨ih1, ih2⟩ := ih _ _ h2
      constructor
      · intro q hq hqdeg
        rcases List.mem_cons.mp hq with rfl | hq2
        · refine ⟨lab, hlab, fun hc => ?_⟩
          have hm : q.1 ∈ (if alwaysContainedLabels.contains lab then acc ++ [q.1] else acc) := by
            rw [if_pos hc]
            simp
          exact (ih2 q.1).mpr (Or.inl hm)
        · exact ih1 q hq2 hqdeg
      · intro n
        rw [ih2 n]
        constructor
        · rintro (hn | ⟨q, hq, rfl, hqd, hlq⟩)
          · by_cases hc : alwaysContainedLabels.contains lab = true
            · rw [if_pos hc] at hn
              rcases List.mem_append.mp hn with hn2 | hn2
              · exact Or.inl hn2
              · simp only [List.mem_singleton] at hn2
                subst hn2
                exact Or.inr ⟨p, List.mem_cons_self _ _, rfl, hdeg, lab, hlab, hc⟩
            · rw [if_neg hc] at hn
              exact Or.inl hn
          · exact Or.inr ⟨q, List.mem_cons_of_mem _ hq, rfl, hqd, hlq⟩
        · rintro (hn | ⟨q, hq, rfl, hqd, lab2, hl2, hc2⟩)
          · left
            by_cases hc : alwaysContainedLabels.contains lab = true
            · rw [if_pos hc]
              exact List.mem_append_left _ hn
            · rw [if_neg hc]
              exact hn
          · rcases List.mem_cons.mp hq with rfl | hq2
            · left
              rw [hlab] at hl2
              injection hl2 with hl3
              rw [if_pos (hl3 ▸ hc2)]
              simp
            · right
              exact ⟨q, hq2, rfl, hqd, lab2, hl2, hc2⟩
    · rw [hstep] at h
      have h2 : l.foldlM (unattachedStep g) acc = .ok res := h
      obtain ⟨ih1, ih2⟩ := ih _ _ h2
      constructor
      · intro q hq hqdeg
        rcases List.mem_cons.mp hq with rfl | hq2
        · exact absurd hqdeg hdeg
        · exact ih1 q hq2 hqdeg
      · intro n
        rw [ih2 n]
        constructor
        · rintro (hn | ⟨q, hq, rfl, hqd, hlq⟩)
          · exact Or.inl hn
          · exact Or.inr ⟨q, List.mem_cons_of_mem _ hq, rfl, hqd, hlq⟩
        · rintro (hn | ⟨q, hq, rfl, hqd, hlq⟩)
          · exact Or.inl hn
          · rcases List.mem_cons.mp hq with rfl | hq2
            · exact absurd hqd hdeg
            · exact Or.inr ⟨q, hq2, rfl, hqd, hlq⟩

theorem unattachedOf_mem (g : Graph) (u : List String) (h : unattachedOf g = .ok u)
    (n : String) :
    n ∈ u ↔ ∃ p ∈ g.nodes, p.1 = n ∧ g.inDegree p.1 = 0 ∧
      ∃ lab, g.labelOf p.1 = some lab ∧ alwaysContainedLabels.contains lab = true := by
  unfold unattachedOf at h
  rw [(unattachedAux g g.nodes [] u h).2 n]
  simp

theorem unattachedOf_complete (g : Graph) (u : List String) (h : unattachedOf g = .ok u) :
    ∀ p ∈ g.nodes, g.inDegree p.1 = 0 →
      ∃ lab, g.labelOf p.1 = some lab ∧
        (alwaysContainedLabels.contains lab = true → p.1 ∈ u) := by
  unfold unattachedOf at h
  exact (unattachedAux g g.nodes [] u h).1

theorem unattachedAux_error (g : Graph) (l : List (String × NodeAttrs)) :
    ∀ (acc : List String) (e : BuildError),
      l.foldlM (unattachedStep g) acc = .error e → e = .keyError := by
  induction l with
  | nil =>
    intro acc e h
    rw [List.foldlM_nil] at h
    exact Except.noConfusion (h : (Except.ok acc : Except BuildError (List String)) = .error e)
  | cons p l ih =>
    intro acc e h
    rw [List.foldlM_cons] at h
    rcases unattachedStep_cases g acc p with ⟨_, _, hstep⟩ |
      ⟨_, lab, _, hstep⟩ | ⟨_, hstep⟩
    · rw [hstep] at h
      have h' : (Except.error BuildError.keyError : Except BuildError (List String)) =
          .error e := h
      injection h' with h2
      exact h2.symm
    · rw [hstep] at h
      exact ih _ e h
    · rw [hstep] at h
      exact ih _ e h

theorem unattachedOf_error_keyError (g : Graph) (e : BuildError)
    (h : unattachedOf g = .error e) : e = .keyError := by
  unfold unattachedOf at h
  exact unattachedAux_error g g.nodes [] e h

theorem unattachedOf_error_of_dangling (g : Graph) (p : String × NodeAttrs)
    (hp : p ∈ g.nodes) (hdeg : g.inDegree p.1 = 0) (hlab : g.labelOf p.1 = none) :
    unattachedOf g = .error .keyError := by
  cases h : unattachedOf g with
  | ok u =>
    rcases unattachedOf_complete g u h p hp hdeg with ⟨lab, hl, _⟩
    rw [hlab] at hl
    exact Option.noConfusion hl
  | error e =>
    rw [unattachedOf_error_keyError g e h]

/-! ### Exact edge effect of the database step -/

theorem edges_addEdge_eq (g : Graph) (u v : String) :
    (g.addEdge u v).edges =
      if g.hasEdge u v then g.edges else g.edges ++ [(u, v)] := by
  unfold Graph.addEdge
  dsimp only
  have he : ((g.ensureNode u).ensureNode v).hasEdge u v = g.hasEdge u v := by
    rw [hasEdge_ensureNode, hasEdge_ensureNode]
  by_cases h : g.hasEdge u v = true
  · rw [if_pos (he ▸ h : _), if_pos h, edges_ensureNode, edges_ensureNode]
  · rw [if_neg (he ▸ h : _), if_neg h, edges_ensureNode, edges_ensureNode]

theorem not_mem_edges_of_inDegree_zero {g : Graph} {v : String}
    (h : g.inDegree v = 0) (u : String) : (u, v) ∉ g.edges := by
  intro hm
  unfold Graph.inDegree at h
  rw [List.length_eq_zero] at h
  have : (u, v) ∈ g.edges.filter (fun e => e.2 == v) :=
    List.mem_filter.mpr ⟨hm, by simp⟩
  rw [h] at this
  exact List.not_mem_nil _ this

theorem dbFold_edges (dbId : String) (l : List DbSubnet) :
    ∀ s : BState,
      (listSubnetIds l).Nodup →
      (∀ i ∈ listSubnetIds l, (i, dbId) ∉ s.g.edges) →
      (l.foldl (fun st sn =>
        if truthy sn.SubnetIdentifier then
          st.addEdge (sn.SubnetIdentifier.getD "") dbId
        else st) s).g.edges =
      s.g.edges ++ (listSubnetIds l).map (fun i => (i, dbId)) := by
  induction l with
  | nil =>
    intro s _ _
    simp [listSubnetIds]
  | cons sn l ih =>
    intro s hnd hnm
    by_cases ht : truthy sn.SubnetIdentifier = true
    · have hids : listSubnetIds (sn :: l) =
          sn.SubnetIdentifier.getD "" :: listSubnetIds l := by
        unfold listSubnetIds
        rw [List.filterMap_cons]
        rw [if_pos ht]
      rw [hids] at hnd hnm
      rw [List.foldl_cons, if_pos ht]
      have hmem : (sn.SubnetIdentifier.getD "", dbId) ∉ s.g.edges :=
        hnm _ (List.mem_cons_self _ _)
      have hstep : (s.addEdge (sn.SubnetIdentifier.getD "") dbId).g.edges =
          s.g.edges ++ [(sn.SubnetIdentifier.getD "", dbId)] := by
        show (s.g.addEdge _ _).edges = _
        rw [edges_addEdge_eq, if_neg (fun hc => hmem ((hasEdge_iff ..).mp hc))]
      rw [ih _ (List.Nodup.of_cons hnd) ?_, hstep, hids]
      · rw [List.map_cons, List.append_assoc]
        rfl
      · intro i hi
        rw [hstep]
        intro hc
        rcases List.mem_append.mp hc with hc2 | hc2
        · exact hnm i (List.mem_cons_of_mem _ hi) hc2
        · simp only [List.mem_singleton, Prod.mk.injEq] at hc2
          have : i ∈ sn.SubnetIdentifier.getD "" :: listSubnetIds l → False := by
            intro _
            exact (List.nodup_cons.mp hnd).1 (hc2.1 ▸ hi)
          exact this (List.mem_cons_of_mem _ hi)
    · have hids : listSubnetIds (sn :: l) = listSubnetIds l := by
        unfold listSubnetIds
        rw [List.filterMap_cons]
        rw [if_neg ht]
      rw [hids] at hnd hnm
      rw [List.foldl_cons, if_neg ht, ih s hnd hnm, hids]

/-! ### Case lemmas for the step 7 name resolution -/

theorem resolveStep7_empty (b : ServiceLbBinding)
    (h : (b.targetGroupArn.getD "").isEmpty = true) :
    resolveStep7 b = .ok none := by
  unfold resolveStep7
  rw [if_pos h]

theorem resolveStep7_direct (b : ServiceLbBinding)
    (h : (b.targetGroupArn.getD "").isEmpty = false)
    (ht : truthy b.loadBalancerName = true) :
    resolveStep7 b = .ok b.loadBalancerName := by
  unfold resolveStep7
  rw [if_neg (by simp [h]), if_pos ht]

theorem resolveStep7_parse (b : ServiceLbBinding)
    (h : (b.targetGroupArn.getD "").isEmpty = false)
    (ht : truthy b.loadBalancerName = false)
    (hlen : (pySplit (b.targetGroupArn.getD "") '/').length ≥ 2) :
    resolveStep7 b = .ok (some ((pySplit (b.targetGroupArn.getD "") '/').getD
      ((pySplit (b.targetGroupArn.getD "") '/').length - 2) "")) := by
  unfold resolveStep7
  rw [if_neg (by simp [h]), if_neg (by simp [ht])]
  dsimp only
  rw [if_pos hlen]

theorem resolveStep7_short (b : ServiceLbBinding)
    (h : (b.targetGroupArn.getD "").isEmpty = false)
    (ht : truthy b.loadBalancerName = false)
    (hlen : (pySplit (b.targetGroupArn.getD "") '/').length < 2) :
    resolveStep7 b = .error .indexError := by
  unfold resolveStep7
  rw [if_neg (by simp [h]), if_neg (by simp [ht])]
  dsimp only
  rw [if_neg (by omega)]

/-! ### Case lemmas for the processing of one binding -/

theorem processBinding_of_resolve_none (m : List (String × String)) (sid : String)
    (st : BState) (b : ServiceLbBinding)
    (hr : resolveStep7 b = .ok none) :
    processBinding m sid st b =
      .ok (if !(b.targetGroupArn.getD "").isEmpty then
        match lookupKV m (b.targetGroupArn.getD "") with
        | some vpc => st.addEdge vpc sid
        | none => st
      else st) := by
  unfold processBinding
  rw [hr]
  show Except.ok _ = Except.ok _
  congr 1

theorem processBinding_of_resolve_falsy (m : List (String × String)) (sid : String)
    (st : BState) (b : ServiceLbBinding) (nm : Option String)
    (hr : resolveStep7 b = .ok nm) (ht : truthy nm = false) :
    processBinding m sid st b =
      .ok (if !(b.targetGroupArn.getD "").isEmpty then
        match lookupKV m (b.targetGroupArn.getD "") with
        | some vpc => st.addEdge vpc sid
        | none => st
      else st) := by
  unfold processBinding
  rw [hr]
  show Except.ok _ = Except.ok _
  congr 1
  rw [if_neg (show ¬(truthy nm = true) by simp [ht])]

theorem processBinding_empty_arn (m : List (String × String)) (sid : String)
    (st : BState) (b : ServiceLbBinding)
    (h : (b.targetGroupArn.getD "").isEmpty = true) :
    processBinding m sid st b = .ok st := by
  rw [processBinding_of_resolve_none m sid st b (resolveStep7_empty b h)]
  rw [if_neg (by simp [h])]

theorem processBinding_of_resolve_error (m : List (String × String)) (sid : String)
    (st : BState) (b : ServiceLbBinding) (e : BuildError)
    (hr : resolveStep7 b = .error e) :
    processBinding m sid st b = .error e := by
  unfold processBinding
  rw [hr]
  rfl

theorem processBinding_resolved_node (m : List (String × String)) (sid : String)
    (st : BState) (b : ServiceLbBinding) (n : String)
    (hr : resolveStep7 b = .ok (some n)) (hne : n ≠ "") :
    ∃ st2, processBinding m sid st b = .ok st2 ∧
      st2.g.hasNode ("LB:" ++ n) = true ∧ st2.g.hasEdge sid ("LB:" ++ n) = true := by
  have hiE : n.isEmpty = false := by
    cases hni : n.isEmpty
    · rfl
    · exact absurd ((String.isEmpty_iff n).mp hni) hne
  have ht : truthy (some n) = true := by simp [truthy, hiE]
  cases hpb : processBinding m sid st b with
  | error e =>
    unfold processBinding at hpb
    rw [hr] at hpb
    exact Except.noConfusion
      (hpb : (Except.ok _ : Except BuildError BState) = .error e)
  | ok st2 =>
    refine ⟨st2, rfl, ?_⟩
    rcases processBinding_ok_state m sid st b st2 hpb with ⟨nm, hnm, h2⟩
    rw [hr] at hnm
    injection hnm with hnm2
    subst hnm2
    subst h2
    dsimp only
    have hA : ((fun s : BState =>
        s.g.hasNode ("LB:" ++ n) = true ∧ s.g.hasEdge sid ("LB:" ++ n) = true) :
        BState → Prop)
        (if truthy (some n) then
          let lb_id := "LB:" ++ (some n).getD ""
          let stB :=
            if st.g.hasNode lb_id then st
            else st.addNode lb_id ⟨some "Load Balancer", some "lightslategray", some 3⟩
          stB.addEdge sid lb_id
        else st) := by
      rw [if_pos ht]
      dsimp only
      constructor
      · exact (hasNode_addEdge _ sid _ _).mpr (Or.inr (Or.inr rfl))
      · exact hasEdge_addEdge_self _ sid _
    by_cases harn : (!(b.targetGroupArn.getD "").isEmpty) = true
    · rw [if_pos harn]
      cases hlk : lookupKV m (b.targetGroupArn.getD "") with
      | some vpc =>
        exact ⟨(hasNode_addEdge _ vpc sid _).mpr (Or.inl hA.1),
          hasEdge_of_ext (edgeExt_bstate_addEdge _ vpc sid) hA.2⟩
      | none => exact hA
    · rw [if_neg harn]
      exact hA

/-! ### Claim C10 -/

/-- C10: a service load-balancer binding with no direct name and the
non-empty target-group ARN `abc`, which contains at most one
slash-separated segment, makes the step 7 name resolution raise
IndexError (index `[-2]` out of range), and the whole build aborts with
that error instead of skipping the binding. -/
theorem c10_step7_index_error_aborts :
    resolveStep7 ⟨none, some "abc"⟩ = .error .indexError ∧
    build cexInputC10 = .error .indexError :=
  ⟨rfl, rfl⟩

/-! ### Claim C8 -/

/-- C8: in used-name detection (step 5), a binding with no direct name
whose target-group ARN has last colon-delimited component
`targetgroup/my-tg/abc123` recovers exactly the name `my-tg` and adds it
to the set; when the last colon-delimited component splits on `/` into
fewer than two segments, no name is recovered and the set is unchanged. -/
theorem c8_used_name_recovery :
    (∀ acc : List String,
      usedNamesStep acc
        ⟨none, some "arn:aws:elasticloadbalancing:us-east-1:123456789012:targetgroup/my-tg/abc123"⟩ =
        insertNew acc "my-tg") ∧
    (∀ (acc : List String) (b : ServiceLbBinding),
      truthy b.loadBalancerName = false →
      (pySplit ((pySplit (b.targetGroupArn.getD "") ':').getLastD "") '/').length < 2 →
      usedNamesStep acc b = acc) := by
  constructor
  · intro acc
    rfl
  · intro acc b hname hlen
    unfold usedNamesStep
    dsimp only
    rw [if_neg (by simp [hname])]
    by_cases harn : (!(b.targetGroupArn.getD "").isEmpty) = true
    · rw [if_pos harn, if_neg (by omega)]
    · rw [if_neg harn]

/-- Witness for C8 at concrete inputs. -/
theorem c8_witness :
    usedNamesStep []
      ⟨none, some "arn:aws:elasticloadbalancing:us-east-1:123456789012:targetgroup/my-tg/abc123"⟩ =
      insertNew [] "my-tg" ∧
    usedNamesStep ["x"] ⟨none, some "nope"⟩ = ["x"] :=
  ⟨c8_used_name_recovery.1 [],
   c8_used_name_recovery.2 ["x"] ⟨none, some "nope"⟩ rfl (by decide)⟩

/-! ### Claim C9 -/

/-- C9: a database whose subnet group lists N distinct truthy subnet
references, all existing as nodes, receives exactly N inbound edges from
step 3, one per listed subnet; a database with an empty or missing
subnet list receives no inbound edge from this step (its edge list is
left unchanged). -/
theorem c9_db_inbound_edges (st : BState) (db : DbInstance) :
    (dbSubnets db = [] → (stepDb st db).g.edges = st.g.edges) ∧
    ((listSubnetIds (dbSubnets db)).Nodup →
      (∀ i ∈ listSubnetIds (dbSubnets db), st.g.hasNode i = true) →
      st.g.inDegree db.DBInstanceIdentifier = 0 →
      (stepDb st db).g.inDegree db.DBInstanceIdentifier =
        (listSubnetIds (dbSubnets db)).length) := by
  constructor
  · intro h
    unfold stepDb
    dsimp only
    rw [h, List.foldl_nil]
    exact edges_addNodeAttrs st.g _ _
  · intro hnd _ hdeg
    unfold stepDb
    dsimp only
    have hinit : (st.addNode db.DBInstanceIdentifier
        ⟨some "RDS", some "plum", some 0⟩).g.edges = st.g.edges :=
      edges_addNodeAttrs st.g _ _
    have hnm : ∀ i ∈ listSubnetIds (dbSubnets db),
        (i, db.DBInstanceIdentifier) ∉ (st.addNode db.DBInstanceIdentifier
          ⟨some "RDS", some "plum", some 0⟩).g.edges := by
      intro i _
      rw [hinit]
      exact not_mem_edges_of_inDegree_zero hdeg i
    have hfold := dbFold_edges db.DBInstanceIdentifier (dbSubnets db) _ hnd hnm
    unfold Graph.inDegree
    rw [hfold, hinit, List.filter_append, List.length_append]
    have h1 : (st.g.edges.filter (fun e => e.2 == db.DBInstanceIdentifier)).length = 0 := hdeg
    rw [h1, List.filter_map]
    simp [Function.comp]

/-- Witness for C9 at concrete inputs. -/
theorem c9_witness :
    (stepDb ⟨⟨[("sub-1", NodeAttrs.empty)], []⟩, []⟩
      ⟨"db-1", some ⟨some [⟨some "sub-1"⟩]⟩⟩).g.inDegree "db-1" = 1 ∧
    (stepDb ⟨Graph.empty, []⟩ ⟨"db-0", some ⟨some []⟩⟩).g.edges = [] := by
  constructor
  · exact ((c9_db_inbound_edges ⟨⟨[("sub-1", NodeAttrs.empty)], []⟩, []⟩
      ⟨"db-1", some ⟨some [⟨some "sub-1"⟩]⟩⟩).2 (by decide) (by decide) (by decide)).trans
      (by decide)
  · exact (c9_db_inbound_edges ⟨Graph.empty, []⟩ ⟨"db-0", some ⟨some []⟩⟩).1 (by decide)

/-! ### Claim C4 -/

/-- C4 is refuted as stated: a subnet whose `Tags` collection is present
but an empty array makes the builder abort with IndexError (the index
`[0]` into the empty tag list), instead of degrading to a default. -/
theorem c4_counterexample : build cexInputC4 = .error .indexError := rfl

/-- C4 amended: the builder completes normally on all-empty collections,
and an absent optional field takes its documented default — a missing
CIDR yields the label `VPC(newline)unknown`, a missing `Tags` key yields
the raw subnet id as the subnet name, and a missing subnet list adds no
inbound edge; only a present-but-empty `Tags` array aborts (as the
counterexample shows). -/
theorem c4_amended_defaults :
    build emptyInv = .ok (⟨Graph.empty, []⟩, []) ∧
    (∀ (st : BState) (v : Vpc), v.CidrBlock = none →
      (stepVpcs st [v]).g.labelOf v.VpcId = some "VPC\nunknown") ∧
    (∀ s : Subnet, s.Tags = none → subnetName s = .ok s.SubnetId) ∧
    (∀ (st : BState) (s : Subnet), s.Tags = none →
      ∃ st2, stepSubnets st [s] = .ok st2 ∧
        st2.g.labelOf s.SubnetId = some ("Subnet\n" ++ s.SubnetId)) ∧
    (∀ (st : BState) (db : DbInstance), db.DBSubnetGroup = none →
      (stepDb st db).g.edges = st.g.edges) := by
  refine ⟨rfl, ?_, ?_, ?_, ?_⟩
  · intro st v h
    unfold stepVpcs
    rw [List.foldl_cons, List.foldl_nil]
    show (st.g.addNodeAttrs _ _).labelOf _ = _
    rw [labelOf_addNodeAttrs_self, h]
    rfl
  · intro s h
    simp [subnetName, h]
  · intro st s h
    have hsn : subnetName s = .ok s.SubnetId := by simp [subnetName, h]
    refine ⟨(st.addNode s.SubnetId
      ⟨some ("Subnet\n" ++ s.SubnetId), some "lightgreen", some 1⟩).addEdge
        s.VpcId s.SubnetId, ?_, ?_⟩
    · unfold stepSubnets
      rw [List.foldlM_cons, hsn]
      rfl
    · show ((st.g.addNodeAttrs s.SubnetId
          ⟨some ("Subnet\n" ++ s.SubnetId), some "lightgreen", some 1⟩).addEdge
            s.VpcId s.SubnetId).labelOf s.SubnetId = some ("Subnet\n" ++ s.SubnetId)
      rw [labelOf_addEdge_of_hasNode _ _ _ _
        ((hasNode_addNodeAttrs st.g s.SubnetId _ s.SubnetId).mpr (Or.inr rfl))]
      exact labelOf_addNodeAttrs_self st.g s.SubnetId _
  · intro st db h
    unfold stepDb
    dsimp only
    rw [show dbSubnets db = [] by simp [dbSubnets, h], List.foldl_nil]
    exact edges_addNodeAttrs st.g _ _

/-- Witness for C4 amended at concrete inputs. -/
theorem c4_amended_witness :
    build emptyInv = .ok (⟨Graph.empty, []⟩, []) ∧
    (stepVpcs ⟨Graph.empty, []⟩ [⟨"v-9", none⟩]).g.labelOf "v-9" = some "VPC\nunknown" ∧
    subnetName ⟨"s-9", "v-9", none⟩ = .ok "s-9" ∧
    (∃ st2, stepSubnets ⟨Graph.empty, []⟩ [⟨"s-9", "v-9", none⟩] = .ok st2 ∧
      st2.g.labelOf "s-9" = some ("Subnet\n" ++ "s-9")) ∧
    (stepDb ⟨Graph.empty, []⟩ ⟨"db-9", none⟩).g.edges = [] :=
  ⟨c4_amended_defaults.1,
   c4_amended_defaults.2.1 ⟨Graph.empty, []⟩ ⟨"v-9", none⟩ rfl,
   c4_amended_defaults.2.2.1 ⟨"s-9", "v-9", none⟩ rfl,
   c4_amended_defaults.2.2.2.1 ⟨Graph.empty, []⟩ ⟨"s-9", "v-9", none⟩ rfl,
   c4_amended_defaults.2.2.2.2 ⟨Graph.empty, []⟩ ⟨"db-9", none⟩ rfl⟩

/-! ### Claim C1 -/

/-- C1 is refuted as stated: step 7 does not use the same two-path rule
as step 5. For the binding with direct name `foo` and no target-group
ARN, the step 5 rule resolves `foo`, but step 7 resolves nothing (the
conditional covers the whole expression, so an empty ARN yields `None`
even when a direct name is present); on a full input carrying only this
binding, no node `LB:foo` and no edge from the service to it is
created. -/
theorem c1_counterexample :
    resolveStep7 ⟨some "foo", none⟩ = .ok none ∧
    specTwoPathResolve ⟨some "foo", none⟩ = some "foo" ∧
    (build cexInputC1).map
      (fun r => (r.1.g.hasNode "LB:foo", r.1.g.hasEdge "SVC:s" "LB:foo")) =
      .ok (false, false) :=
  ⟨rfl, rfl, rfl⟩

/-- C1 amended: in step 7, when the target-group ARN is empty no name is
resolved and the binding changes nothing, even when a direct name is
present; when the ARN is non-empty the direct name takes precedence and
leads to an on-demand node and a service → load-balancer edge; when the
ARN is non-empty and the direct name is falsy, the whole ARN is split on
`/` and, with at least two segments and a non-empty second-to-last
segment, that segment names the node and edge; with fewer than two
segments the binding raises IndexError. -/
theorem c1_amended_step7_resolution (m : List (String × String)) (sid : String)
    (st : BState) (b : ServiceLbBinding) :
    ((b.targetGroupArn.getD "").isEmpty = true →
      resolveStep7 b = .ok none ∧ processBinding m sid st b = .ok st) ∧
    ((b.targetGroupArn.getD "").isEmpty = false → truthy b.loadBalancerName = true →
      ∃ st2, processBinding m sid st b = .ok st2 ∧
        st2.g.hasNode ("LB:" ++ b.loadBalancerName.getD "") = true ∧
        st2.g.hasEdge sid ("LB:" ++ b.loadBalancerName.getD "") = true) ∧
    ((b.targetGroupArn.getD "").isEmpty = false → truthy b.loadBalancerName = false →
      (pySplit (b.targetGroupArn.getD "") '/').length ≥ 2 →
      (pySplit (b.targetGroupArn.getD "") '/').getD
        ((pySplit (b.targetGroupArn.getD "") '/').length - 2) "" ≠ "" →
      ∃ st2, processBinding m sid st b = .ok st2 ∧
        st2.g.hasNode ("LB:" ++ (pySplit (b.targetGroupArn.getD "") '/').getD
          ((pySplit (b.targetGroupArn.getD "") '/').length - 2) "") = true ∧
        st2.g.hasEdge sid ("LB:" ++ (pySplit (b.targetGroupArn.getD "") '/').getD
          ((pySplit (b.targetGroupArn.getD "") '/').length - 2) "") = true) ∧
    ((b.targetGroupArn.getD "").isEmpty = false → truthy b.loadBalancerName = false →
      (pySplit (b.targetGroupArn.getD "") '/').length < 2 →
      processBinding m sid st b = .error .indexError) := by
  refine ⟨?_, ?_, ?_, ?_⟩
  · intro h
    exact ⟨resolveStep7_empty b h, processBinding_empty_arn m sid st b h⟩
  · intro h ht
    have hr := resolveStep7_direct b h ht
    cases hlb : b.loadBalancerName with
    | none =>
      rw [hlb] at ht
      exact absurd ht (by simp [truthy])
    | some nm =>
      rw [hlb] at hr ht
      have hne : nm ≠ "" := by
        intro hc
        rw [hc] at ht
        exact absurd ht (by decide)
      exact processBinding_resolved_node m sid st b nm hr hne
  · intro h ht hlen hne
    have hr := resolveStep7_parse b h ht hlen
    exact processBinding_resolved_node m sid st b _ hr hne
  · intro h ht hlen
    exact processBinding_of_resolve_error m sid st b _ (resolveStep7_short b h ht hlen)

/-- Witness for C1 amended at concrete inputs. -/
theorem c1_amended_witness :
    processBinding [] "SVC:s" ⟨Graph.empty, []⟩ ⟨some "foo", none⟩ =
      .ok ⟨Graph.empty, []⟩ ∧
    (∃ st2, processBinding [] "SVC:s" ⟨Graph.empty, []⟩ ⟨some "foo", some "a/b"⟩ =
        .ok st2 ∧
      st2.g.hasNode ("LB:" ++ (some "foo").getD "") = true ∧
      st2.g.hasEdge "SVC:s" ("LB:" ++ (some "foo").getD "") = true) ∧
    (∃ st2, processBinding [] "SVC:s" ⟨Graph.empty, []⟩ ⟨none, some "a/b"⟩ =
        .ok st2 ∧
      st2.g.hasNode ("LB:" ++ (pySplit "a/b" '/').getD
        ((pySplit "a/b" '/').length - 2) "") = true ∧
      st2.g.hasEdge "SVC:s" ("LB:" ++ (pySplit "a/b" '/').getD
        ((pySplit "a/b" '/').length - 2) "") = true) ∧
    processBinding [] "SVC:s" ⟨Graph.empty, []⟩ ⟨none, some "abc"⟩ =
      .error .indexError :=
  ⟨((c1_amended_step7_resolution [] "SVC:s" ⟨Graph.empty, []⟩ ⟨some "foo", none⟩).1 rfl).2,
   (c1_amended_step7_resolution [] "SVC:s" ⟨Graph.empty, []⟩ ⟨some "foo", some "a/b"⟩).2.1
     rfl rfl,
   (c1_amended_step7_resolution [] "SVC:s" ⟨Graph.empty, []⟩ ⟨none, some "a/b"⟩).2.2.1
     rfl rfl (by decide) (by decide),
   (c1_amended_step7_resolution [] "SVC:s" ⟨Graph.empty, []⟩ ⟨none, some "abc"⟩).2.2.2
     rfl rfl (by decide)⟩

/-! ### Claim C3 -/

/-- C3 is refuted as stated: for a database referencing the subnet
`sub-x` that exists as no node, the edge is still added and a fresh
attribute-less node `sub-x` appears (networkx creates missing
endpoints), and the builder then fails with KeyError in step 8 when it
reads the label of that in-degree-zero node — instead of skipping
silently. -/
theorem c3_counterexample :
    (build7 cexInputC3).map
      (fun st => (st.g.hasNode "sub-x", st.g.hasEdge "sub-x" "db1")) = .ok (true, true) ∧
    build cexInputC3 = .error .keyError :=
  ⟨rfl, rfl⟩

/-- C3 amended: a database subnet reference with a falsy
`SubnetIdentifier` is skipped silently; a truthy reference always adds
the edge and (implicitly) the endpoint node, existing or not; an
attribute-less node with in-degree zero makes the step 8 comprehension
fail with KeyError; and a binding whose resolved name is falsy and whose
target-group ARN is not in the target-group map changes nothing (the
container edge is skipped silently). -/
theorem c3_amended_missing_refs :
    (∀ (st : BState) (db : DbInstance),
      (∀ sn ∈ dbSubnets db, truthy sn.SubnetIdentifier = false) →
      (stepDb st db).g.edges = st.g.edges) ∧
    (∀ (st : BState) (db : DbInstance) (sn : DbSubnet),
      sn ∈ dbSubnets db → truthy sn.SubnetIdentifier = true →
      (stepDb st db).g.hasNode (sn.SubnetIdentifier.getD "") = true ∧
      (stepDb st db).g.hasEdge (sn.SubnetIdentifier.getD "")
        db.DBInstanceIdentifier = true) ∧
    (∀ (g : Graph) (p : String × NodeAttrs), p ∈ g.nodes → g.inDegree p.1 = 0 →
      g.labelOf p.1 = none → unattachedOf g = .error .keyError) ∧
    (∀ (m : List (String × String)) (sid : String) (st : BState)
      (b : ServiceLbBinding) (nm : Option String),
      resolveStep7 b = .ok nm → truthy nm = false →
      lookupKV m (b.targetGroupArn.getD "") = none →
      processBinding m sid st b = .ok st) := by
  refine ⟨?_, ?_, ?_, ?_⟩
  · intro st db hall
    unfold stepDb
    dsimp only
    have hinit : (st.addNode db.DBInstanceIdentifier
        ⟨some "RDS", some "plum", some 0⟩).g.edges = st.g.edges :=
      edges_addNodeAttrs st.g _ _
    refine foldl_preserve _ (fun s : BState => s.g.edges = st.g.edges) (dbSubnets db) ?_ _ hinit
    intro s x hx hs
    rw [if_neg (by simp [hall x hx])]
    exact hs
  · intro st db sn hsn ht
    unfold stepDb
    dsimp only
    refine foldl_establish _
      (fun s : BState => s.g.hasNode (sn.SubnetIdentifier.getD "") = true ∧
        s.g.hasEdge (sn.SubnetIdentifier.getD "") db.DBInstanceIdentifier = true)
      (dbSubnets db) sn hsn ?_ ?_ _
    · intro s
      rw [if_pos ht]
      constructor
      · exact (hasNode_addEdge s.g _ _ _).mpr (Or.inr (Or.inl rfl))
      · exact hasEdge_addEdge_self s.g _ _
    · intro s x _ hP
      by_cases hx : truthy x.SubnetIdentifier = true
      · rw [if_pos hx]
        exact ⟨(hasNode_addEdge s.g _ _ _).mpr (Or.inl hP.1),
          hasEdge_of_ext (edgeExt_bstate_addEdge s _ _) hP.2⟩
      · rw [if_neg hx]
        exact hP
  · intro g p hp hdeg hlab
    exact unattachedOf_error_of_dangling g p hp hdeg hlab
  · intro m sid st b nm hr ht hlk
    rw [processBinding_of_resolve_falsy m sid st b nm hr ht]
    by_cases harn : (!(b.targetGroupArn.getD "").isEmpty) = true
    · rw [if_pos harn, hlk]
    · rw [if_neg harn]

/-- Witness for C3 amended at concrete inputs. -/
theorem c3_amended_witness :
    (stepDb ⟨Graph.empty, []⟩ ⟨"dbA", some ⟨some [⟨some ""⟩]⟩⟩).g.edges = [] ∧
    ((stepDb ⟨Graph.empty, []⟩ ⟨"db1", some ⟨some [⟨some "sub-x"⟩]⟩⟩).g.hasNode
        ((some "sub-x").getD "") = true ∧
      (stepDb ⟨Graph.empty, []⟩ ⟨"db1", some ⟨some [⟨some "sub-x"⟩]⟩⟩).g.hasEdge
        ((some "sub-x").getD "") "db1" = true) ∧
    unattachedOf ⟨[("x", NodeAttrs.empty)], []⟩ = .error .keyError ∧
    processBinding [] "SVC:q" ⟨Graph.empty, []⟩ ⟨none, some "x//y"⟩ =
      .ok ⟨Graph.empty, []⟩ :=
  ⟨c3_amended_missing_refs.1 ⟨Graph.empty, []⟩ ⟨"dbA", some ⟨some [⟨some ""⟩]⟩⟩
      (by decide),
   c3_amended_missing_refs.2.1 ⟨Graph.empty, []⟩ ⟨"db1", some ⟨some [⟨some "sub-x"⟩]⟩⟩
      ⟨some "sub-x"⟩ (by decide) rfl,
   c3_amended_missing_refs.2.2.1 ⟨[("x", NodeAttrs.empty)], []⟩ ("x", NodeAttrs.empty)
      (by decide) rfl rfl,
   c3_amended_missing_refs.2.2.2 [] "SVC:q" ⟨Graph.empty, []⟩ ⟨none, some "x//y"⟩
      (some "") rfl rfl rfl⟩

/-! ### Claim C7 -/

/-- C7 is refuted as stated: on an input whose container id is literally
`NO_VPC` and whose single service leaves its cluster unattached, two
different construction steps (step 1 containers and step 8 sentinel)
pass the same id `NO_VPC` to `add_node` — the instrumented add list
records it twice — and the sentinel overwrites the container node's
attributes (its label ends up `No VPC`). -/
theorem c7_counterexample :
    (build cexInputC7).map (fun r => r.1.addedIds.count "NO_VPC") = .ok 2 ∧
    (build cexInputC7).map (fun r => r.1.g.labelOf "NO_VPC") = .ok (some "No VPC") :=
  ⟨rfl, rfl⟩

/-- C7 amended: in the final graph every node id is unique (re-adding an
existing id merges attributes rather than duplicating the node), but
distinct construction steps can pass the same id to `add_node` when a
native identifier collides with a synthetic one, as the counterexample
shows. -/
theorem c7_amended_unique_ids (inp : Inventory) (st : BState) (u : List String)
    (h : build inp = .ok (st, u)) : st.g.keys.Nodup :=
  build_keys_nodup inp st u h

/-- Witness for C7 amended at a concrete input. -/
theorem c7_amended_witness :
    ∃ st u, build cexInputC2 = .ok (st, u) ∧ st.g.keys.Nodup :=
  ⟨_, _, rfl, c7_amended_unique_ids cexInputC2 _ _ rfl⟩

/-! ### Disambiguation of synthetic and native ids -/

theorem string_head_ne {s t : String} {cs ct : Char}
    (hs : s.data.head? = some cs) (ht : t.data.head? = some ct) (hne : cs ≠ ct) :
    s ≠ t := by
  intro h
  rw [h] at hs
  rw [hs] at ht
  injection ht with h2
  exact hne h2

theorem lbPrefixed_append (n : String) : lbPrefixed ("LB:" ++ n) = true := rfl

theorem cluster_id_ne_lb_id (c n : String) : "CLUSTER:" ++ c ≠ "LB:" ++ n :=
  string_head_ne rfl rfl (by decide)

theorem svc_id_ne_lb_id (s n : String) : "SVC:" ++ s ≠ "LB:" ++ n :=
  string_head_ne rfl rfl (by decide)

theorem lb_id_ne_novpc (n : String) : "LB:" ++ n ≠ "NO_VPC" :=
  string_head_ne rfl rfl (by decide)

theorem cluster_id_ne_novpc (c : String) : "CLUSTER:" ++ c ≠ "NO_VPC" :=
  string_head_ne rfl rfl (by decide)

theorem svc_id_ne_novpc (s : String) : "SVC:" ++ s ≠ "NO_VPC" :=
  string_head_ne rfl rfl (by decide)

theorem lb_id_inj {a b : String} (h : "LB:" ++ a = "LB:" ++ b) : a = b := by
  have h2 := congrArg String.data h
  rw [String.data_append, String.data_append] at h2
  exact String.ext (List.append_cancel_left h2)

theorem not_lbPrefixed_ne (x n : String) (h : lbPrefixed x = false) :
    x ≠ "LB:" ++ n := by
  intro hc
  rw [hc, lbPrefixed_append] at h
  exact Bool.noConfusion h

theorem nativesLbFree_spec (inp : Inventory) (x : String)
    (hfree : nativesLbFree inp = true) (hx : x ∈ nativeIds inp) :
    lbPrefixed x = false := by
  unfold nativesLbFree at hfree
  rw [List.all_eq_true] at hfree
  simpa using hfree x hx

theorem noNoVpcNative_spec (inp : Inventory) (x : String)
    (h : noNoVpcNative inp = true) (hx : x ∈ nativeIds inp) : x ≠ "NO_VPC" := by
  unfold noNoVpcNative at h
  intro hc
  subst hc
  rw [Bool.not_eq_true', ← Bool.not_eq_true] at h
  exact h (List.elem_eq_true_of_mem hx)

/-! ### Membership in the native id list -/

theorem vpcId_mem_native (inp : Inventory) {v : Vpc} (hv : v ∈ inp.vpcs) :
    v.VpcId ∈ nativeIds inp := by
  unfold nativeIds
  simp only [List.mem_append, List.mem_map, List.mem_flatMap]
  exact Or.inl (Or.inl (Or.inl (Or.inl (Or.inl (Or.inl ⟨v, hv, rfl⟩)))))

theorem subnetId_mem_native (inp : Inventory) {s : Subnet} (hs : s ∈ inp.subnets) :
    s.SubnetId ∈ nativeIds inp := by
  unfold nativeIds
  simp only [List.mem_append, List.mem_map, List.mem_flatMap]
  exact Or.inl (Or.inl (Or.inl (Or.inl (Or.inl (Or.inr ⟨s, hs, rfl⟩)))))

theorem subnetVpc_mem_native (inp : Inventory) {s : Subnet} (hs : s ∈ inp.subnets) :
    s.VpcId ∈ nativeIds inp := by
  unfold nativeIds
  simp only [List.mem_append, List.mem_map, List.mem_flatMap]
  exact Or.inl (Or.inl (Or.inl (Or.inl (Or.inr ⟨s, hs, rfl⟩))))

theorem dbId_mem_native (inp : Inventory) {db : DbInstance}
    (hdb : db ∈ inp.dbInstances) : db.DBInstanceIdentifier ∈ nativeIds inp := by
  unfold nativeIds
  simp only [List.mem_append, List.mem_map, List.mem_flatMap]
  exact Or.inl (Or.inl (Or.inl (Or.inr ⟨db, hdb, rfl⟩)))

theorem dbSn_mem_native (inp : Inventory) {db : DbInstance} {sn : DbSubnet}
    (hdb : db ∈ inp.dbInstances) (hsn : sn ∈ dbSubnets db) :
    sn.SubnetIdentifier.getD "" ∈ nativeIds inp := by
  unfold nativeIds
  simp only [List.mem_append, List.mem_map, List.mem_flatMap]
  exact Or.inl (Or.inl (Or.inr ⟨db, hdb, ⟨sn, hsn, rfl⟩⟩))

theorem lbVpc_mem_native (inp : Inventory) {lb : LoadBalancerRec}
    (hlb : lb ∈ inp.loadBalancers) : lb.VpcId ∈ nativeIds inp := by
  unfold nativeIds
  simp only [List.mem_append, List.mem_map, List.mem_flatMap]
  exact Or.inl (Or.inr ⟨lb, hlb, rfl⟩)

theorem tgVpc_mem_native (inp : Inventory) {tg : TargetGroupRec}
    (htg : tg ∈ inp.targetGroups) : tg.VpcId ∈ nativeIds inp := by
  unfold nativeIds
  simp only [List.mem_append, List.mem_map, List.mem_flatMap]
  exact Or.inr ⟨tg, htg, rfl⟩

/-! ### The target-group map only holds container ids from the input -/

theorem lookupKV_insertKV (m : List (String × String)) (k v a w : String)
    (h : lookupKV (insertKV m k v) a = some w) :
    lookupKV m a = some w ∨ w = v := by
  unfold insertKV at h
  by_cases hm : m.any (fun p => p.1 == k) = true
  · rw [if_pos hm] at h
    by_cases hak : a = k
    · subst hak
      right
      unfold lookupKV at h
      rw [find?_map_replace m a v hm] at h
      injection h with h2
      exact h2.symm
    · left
      unfold lookupKV at h ⊢
      rw [find?_map_replace_ne m k v a hak] at h
      exact h
  · rw [if_neg hm] at h
    unfold lookupKV at h ⊢
    rw [List.find?_append] at h
    cases hf : m.find? (fun p => p.1 == a) with
    | some q =>
      rw [hf] at h
      left
      exact h
    | none =>
      rw [hf] at h
      by_cases hak : a = k
      · subst hak
        right
        have h2 : (List.find? (fun p => p.1 == a) [(a, v)]) = some (a, v) :=
          List.find?_cons_of_pos _ (by simp)
        rw [h2] at h
        injection h with h3
        exact h3.symm
      · have h2 : (List.find? (fun p => p.1 == a) [(k, v)]) = none := by
          rw [List.find?_eq_none]
          intro x hx
          simp only [List.mem_singleton] at hx
          subst hx
          simp [Ne.symm hak]
        rw [h2] at h
        exact Option.noConfusion h

theorem tgToVpc_values (tgs : List TargetGroupRec) (a v : String)
    (h : lookupKV (tgToVpc tgs) a = some v) : ∃ tg ∈ tgs, v = tg.VpcId := by
  unfold tgToVpc at h
  revert h
  refine foldl_preserve _
    (fun m : List (String × String) =>
      ∀ a2 v2, lookupKV m a2 = some v2 → ∃ tg ∈ tgs, v2 = tg.VpcId) tgs ?_ [] ?_ a v
  · intro m tg htg hP a2 v2 h2
    rcases lookupKV_insertKV m tg.TargetGroupArn tg.VpcId a2 v2 h2 with h3 | h3
    · exact hP a2 v2 h3
    · exact ⟨tg, htg, h3⟩
  · intro a2 v2 h2
    exact Option.noConfusion h2

/-! ### Node origin clause constructors -/

theorem origin_vpcId (inp : Inventory) {v : Vpc} (hv : v ∈ inp.vpcs) :
    NodeOrigin inp v.VpcId := Or.inl ⟨v, hv, rfl⟩

theorem origin_subnetId (inp : Inventory) {s : Subnet} (hs : s ∈ inp.subnets) :
    NodeOrigin inp s.SubnetId := Or.inr (Or.inl ⟨s, hs, Or.inl rfl⟩)

theorem origin_subnetVpc (inp : Inventory) {s : Subnet} (hs : s ∈ inp.subnets) :
    NodeOrigin inp s.VpcId := Or.inr (Or.inl ⟨s, hs, Or.inr rfl⟩)

theorem origin_dbId (inp : Inventory) {db : DbInstance} (hdb : db ∈ inp.dbInstances) :
    NodeOrigin inp db.DBInstanceIdentifier :=
  Or.inr (Or.inr (Or.inl ⟨db, hdb, Or.inl rfl⟩))

theorem origin_dbSn (inp : Inventory) {db : DbInstance} {sn : DbSubnet}
    (hdb : db ∈ inp.dbInstances) (hsn : sn ∈ dbSubnets db)
    (ht : truthy sn.SubnetIdentifier = true) :
    NodeOrigin inp (sn.SubnetIdentifier.getD "") :=
  Or.inr (Or.inr (Or.inl ⟨db, hdb, Or.inr ⟨sn, hsn, ht, rfl⟩⟩))

theorem origin_lbName (inp : Inventory) {lb : LoadBalancerRec}
    (hlb : lb ∈ inp.loadBalancers)
    (hused : (usedLbNames inp.services).contains lb.LoadBalancerName = true) :
    NodeOrigin inp ("LB:" ++ lb.LoadBalancerName) :=
  Or.inr (Or.inr (Or.inr (Or.inl ⟨lb, hlb, hused, Or.inl rfl⟩)))

theorem origin_lbVpc (inp : Inventory) {lb : LoadBalancerRec}
    (hlb : lb ∈ inp.loadBalancers)
    (hused : (usedLbNames inp.services).contains lb.LoadBalancerName = true) :
    NodeOrigin inp lb.VpcId :=
  Or.inr (Or.inr (Or.inr (Or.inl ⟨lb, hlb, hused, Or.inr rfl⟩)))

theorem origin_cluster (inp : Inventory) {svc : EcsService} (hsvc : svc ∈ inp.services) :
    NodeOrigin inp ("CLUSTER:" ++ clusterShortName svc) :=
  Or.inr (Or.inr (Or.inr (Or.inr ⟨svc, hsvc, Or.inl rfl⟩)))

theorem origin_svcId (inp : Inventory) {svc : EcsService} (hsvc : svc ∈ inp.services) :
    NodeOrigin inp ("SVC:" ++ svc.serviceName) :=
  Or.inr (Or.inr (Or.inr (Or.inr ⟨svc, hsvc, Or.inr (Or.inl rfl)⟩)))

theorem origin_binding_lb (inp : Inventory) {svc : EcsService} {b : ServiceLbBinding}
    {n : String} (hsvc : svc ∈ inp.services) (hb : b ∈ svc.loadBalancers.getD [])
    (hr : resolveStep7 b = .ok (some n)) (hne : n ≠ "") :
    NodeOrigin inp ("LB:" ++ n) :=
  Or.inr (Or.inr (Or.inr (Or.inr ⟨svc, hsvc,
    Or.inr (Or.inr ⟨b, hb, Or.inl ⟨n, hr, hne, rfl⟩⟩)⟩)))

theorem origin_binding_tg (inp : Inventory) {svc : EcsService} {b : ServiceLbBinding}
    {k : String} (hsvc : svc ∈ inp.services) (hb : b ∈ svc.loadBalancers.getD [])
    (hlk : lookupKV (tgToVpc inp.targetGroups) (b.targetGroupArn.getD "") = some k) :
    NodeOrigin inp k :=
  Or.inr (Or.inr (Or.inr (Or.inr ⟨svc, hsvc, Or.inr (Or.inr ⟨b, hb, Or.inr hlk⟩)⟩)))

/-! ### Every node of the graph built through step 7 has an origin -/

theorem stepVpcs_origin (inp : Inventory) (st : BState) (hP : OriginInv inp st) :
    OriginInv inp (stepVpcs st inp.vpcs) := by
  unfold stepVpcs
  refine foldl_preserve _ (OriginInv inp) inp.vpcs ?_ st hP
  intro s v hv hs k hk
  rcases (hasNode_addNodeAttrs s.g v.VpcId _ k).mp hk with h1 | h1
  · exact hs k h1
  · exact h1 ▸ origin_vpcId inp hv

theorem stepSubnets_origin (inp : Inventory) (st : BState) (st2 : BState)
    (h : stepSubnets st inp.subnets = .ok st2) (hP : OriginInv inp st) :
    OriginInv inp st2 := by
  unfold stepSubnets at h
  refine exceptFoldlM_ok_preserve inp.subnets ?_ st st2 h hP
  intro s x s2 hx hfx hs
  cases hsn : subnetName x with
  | error e =>
    rw [hsn] at hfx
    exact Except.noConfusion (hfx : (Except.error e : Except BuildError BState) = .ok s2)
  | ok nm =>
    rw [hsn] at hfx
    have h2 : s2 = (s.addNode x.SubnetId
        ⟨some ("Subnet\n" ++ nm), some "lightgreen", some 1⟩).addEdge x.VpcId x.SubnetId := by
      cases hfx
      rfl
    rw [h2]
    intro k hk
    rcases (hasNode_addEdge ..).mp hk with h1 | h1 | h1
    · rcases (hasNode_addNodeAttrs ..).mp h1 with h3 | h3
      · exact hs k h3
      · exact h3 ▸ origin_subnetId inp hx
    · exact h1 ▸ origin_subnetVpc inp hx
    · exact h1 ▸ origin_subnetId inp hx

theorem stepDb_origin (inp : Inventory) (st : BState) {db : DbInstance}
    (hdb : db ∈ inp.dbInstances) (hP : OriginInv inp st) :
    OriginInv inp (stepDb st db) := by
  unfold stepDb
  dsimp only
  refine foldl_preserve _ (OriginInv inp) (dbSubnets db) ?_ _ ?_
  · intro s sn hsn hs k hk
    by_cases ht : truthy sn.SubnetIdentifier = true
    · rw [if_pos ht] at hk
      rcases (hasNode_addEdge ..).mp hk with h1 | h1 | h1
      · exact hs k h1
      · exact h1 ▸ origin_dbSn inp hdb hsn ht
      · exact h1 ▸ origin_dbId inp hdb
    · rw [if_neg ht] at hk
      exact hs k hk
  · intro k hk
    rcases (hasNode_addNodeAttrs ..).mp hk with h1 | h1
    · exact hP k h1
    · exact h1 ▸ origin_dbId inp hdb

theorem stepDbs_origin (inp : Inventory) (st : BState) (hP : OriginInv inp st) :
    OriginInv inp (stepDbs st inp.dbInstances) := by
  unfold stepDbs
  refine foldl_preserve _ (OriginInv inp) inp.dbInstances ?_ st hP
  intro s db hdb hs
  exact stepDb_origin inp s hdb hs

theorem stepLbs_origin (inp : Inventory) (st : BState) (hP : OriginInv inp st) :
    OriginInv inp (stepLbs st inp.loadBalancers (usedLbNames inp.services)) := by
  unfold stepLbs
  refine foldl_preserve _ (OriginInv inp) inp.loadBalancers ?_ st hP
  intro s lb hlb hs k hk
  by_cases hc : (usedLbNames inp.services).contains lb.LoadBalancerName = true
  · rw [if_pos hc] at hk
    dsimp only at hk
    rcases (hasNode_addEdge ..).mp hk with h1 | h1 | h1
    · rcases (hasNode_addNodeAttrs ..).mp h1 with h3 | h3
      · exact hs k h3
      · exact h3 ▸ origin_lbName inp hlb hc
    · exact h1 ▸ origin_lbVpc inp hlb hc
    · exact h1 ▸ origin_lbName inp hlb hc
  · rw [if_neg hc] at hk
    exact hs k hk

theorem processBinding_origin (inp : Inventory) {svc : EcsService}
    (hsvc : svc ∈ inp.services) (st : BState) {b : ServiceLbBinding}
    (hb : b ∈ svc.loadBalancers.getD []) (st2 : BState)
    (h : processBinding (tgToVpc inp.targetGroups) ("SVC:" ++ svc.serviceName) st b = .ok st2)
    (hP : OriginInv inp st) : OriginInv inp st2 := by
  rcases processBinding_ok_state _ _ st b st2 h with ⟨nm, hr, h2⟩
  subst h2
  dsimp only
  have hstage1 : OriginInv inp
      (if truthy nm then
        let lb_id := "LB:" ++ nm.getD ""
        let stB :=
          if st.g.hasNode lb_id then st
          else st.addNode lb_id ⟨some "Load Balancer", some "lightslategray", some 3⟩
        stB.addEdge ("SVC:" ++ svc.serviceName) lb_id
      else st) := by
    by_cases ht : truthy nm = true
    · rw [if_pos ht]
      dsimp only
      cases hnm : nm with
      | none =>
        rw [hnm] at ht
        exact absurd ht (by decide)
      | some n =>
        rw [hnm] at ht
        have hne : n ≠ "" := by
          intro hc
          rw [hc] at ht
          exact absurd ht (by decide)
        rw [hnm] at hr
        intro k hk
        rcases (hasNode_addEdge ..).mp hk with h1 | h1 | h1
        · by_cases hh : st.g.hasNode ("LB:" ++ (some n).getD "") = true
          · rw [if_pos hh] at h1
            exact hP k h1
          · rw [if_neg hh] at h1
            rcases (hasNode_addNodeAttrs ..).mp h1 with h3 | h3
            · exact hP k h3
            · exact h3 ▸ origin_binding_lb inp hsvc hb hr hne
        · exact h1 ▸ origin_svcId inp hsvc
        · exact h1 ▸ origin_binding_lb inp hsvc hb hr hne
    · rw [if_neg ht]
      exact hP
  by_cases harn : (!(b.targetGroupArn.getD "").isEmpty) = true
  · rw [if_pos harn]
    cases hlk : lookupKV (tgToVpc inp.targetGroups) (b.targetGroupArn.getD "") with
    | some vpc =>
      intro k hk
      rcases (hasNode_addEdge ..).mp hk with h1 | h1 | h1
      · exact hstage1 k h1
      · exact origin_binding_tg inp hsvc hb (h1 ▸ hlk)
      · exact h1 ▸ origin_svcId inp hsvc
    | none =>
      exact hstage1
  · rw [if_neg harn]
    exact hstage1

theorem stepService_origin (inp : Inventory) (st : BState) {svc : EcsService}
    (hsvc : svc ∈ inp.services) (st2 : BState)
    (h : stepService (tgToVpc inp.targetGroups) st svc = .ok st2)
    (hP : OriginInv inp st) : OriginInv inp st2 := by
  unfold stepService at h
  have h' : (svc.loadBalancers.getD []).foldlM
      (processBinding (tgToVpc inp.targetGroups) ("SVC:" ++ svc.serviceName))
      (((st.addNode ("CLUSTER:" ++ clusterShortName svc)
          ⟨some "ECS Cluster", some "lightyellow", some 3⟩).addNode
        ("SVC:" ++ svc.serviceName)
          ⟨some ("ECS Service\n" ++ svc.serviceName), some "gold", some 4⟩).addEdge
        ("CLUSTER:" ++ clusterShortName svc) ("SVC:" ++ svc.serviceName)) = .ok st2 := h
  refine exceptFoldlM_ok_preserve _ ?_ _ st2 h' ?_
  · intro s b s2 hb hfx hs
    exact processBinding_origin inp hsvc s hb s2 hfx hs
  · intro k hk
    rcases (hasNode_addEdge ..).mp hk with h1 | h1 | h1
    · rcases (hasNode_addNodeAttrs ..).mp h1 with h2 | h2
      · rcases (hasNode_addNodeAttrs ..).mp h2 with h3 | h3
        · exact hP k h3
        · exact h3 ▸ origin_cluster inp hsvc
      · exact h2 ▸ origin_svcId inp hsvc
    · exact h1 ▸ origin_cluster inp hsvc
    · exact h1 ▸ origin_svcId inp hsvc

theorem stepServices_origin (inp : Inventory) (st : BState) (st2 : BState)
    (h : stepServices (tgToVpc inp.targetGroups) st inp.services = .ok st2)
    (hP : OriginInv inp st) : OriginInv inp st2 := by
  unfold stepServices at h
  refine exceptFoldlM_ok_preserve inp.services ?_ st st2 h hP
  intro s svc s2 hsvc hfx hs
  exact stepService_origin inp s hsvc s2 hfx hs

theorem build7_origin (inp : Inventory) (st7 : BState)
    (h : build7 inp = .ok st7) : OriginInv inp st7 := by
  rcases build7_ok_decomp inp st7 h with ⟨stA, hA, hB⟩
  refine stepServices_origin inp _ st7 hB ?_
  refine stepLbs_origin inp _ ?_
  refine stepDbs_origin inp _ ?_
  refine stepSubnets_origin inp _ stA hA ?_
  refine stepVpcs_origin inp _ ?_
  intro k hk
  exact Bool.noConfusion hk

/-! ### More node lemmas -/

theorem hasNode_of_mem_nodes (g : Graph) (p : String × NodeAttrs)
    (hp : p ∈ g.nodes) : g.hasNode p.1 = true := by
  unfold Graph.hasNode
  rw [List.any_eq_true]
  exact ⟨p, hp, by simp⟩

theorem exists_mem_of_hasNode (g : Graph) (k : String) (h : g.hasNode k = true) :
    ∃ p ∈ g.nodes, p.1 = k := by
  unfold Graph.hasNode at h
  rw [List.any_eq_true] at h
  rcases h with ⟨p, hp, hb⟩
  exact ⟨p, hp, by simpa using hb⟩

theorem attrsOf_eq_none (g : Graph) (k : String) (h : g.hasNode k = false) :
    g.attrsOf k = none := by
  unfold Graph.attrsOf
  rw [find?_key_eq_none g k (by simp [h])]
  rfl

theorem attrsOf_addEdge_endpoints (g : Graph) (u v k : String)
    (hu : g.hasNode u = true) (hv : g.hasNode v = true) :
    (g.addEdge u v).attrsOf k = g.attrsOf k := by
  by_cases hk : g.hasNode k = true
  · exact attrsOf_addEdge_of_hasNode g u v k hk
  · have hk2 : g.hasNode k = false := by simpa using hk
    have h1 : (g.addEdge u v).hasNode k = false := by
      cases h2 : (g.addEdge u v).hasNode k
      · rfl
      · rcases (hasNode_addEdge g u v k).mp h2 with h3 | h3 | h3
        · exact absurd h3 hk
        · exact absurd (h3 ▸ hu) hk
        · exact absurd (h3 ▸ hv) hk
    rw [attrsOf_eq_none _ _ h1, attrsOf_eq_none _ _ hk2]

/-! ### The render-time unattached comprehension on the final graph -/

theorem unattachedOf_nil_of_no_candidates (g : Graph)
    (h : ∀ p ∈ g.nodes, g.inDegree p.1 = 0 →
      ∃ lab, g.labelOf p.1 = some lab ∧ alwaysContainedLabels.contains lab = false) :
    unattachedOf g = .ok [] := by
  unfold unattachedOf
  suffices hgen : ∀ l : List (String × NodeAttrs), (∀ p ∈ l, g.inDegree p.1 = 0 →
      ∃ lab, g.labelOf p.1 = some lab ∧ alwaysContainedLabels.contains lab = false) →
      ∀ acc, l.foldlM (unattachedStep g) acc = .ok acc by
    exact hgen g.nodes h []
  intro l
  induction l with
  | nil =>
    intro _ acc
    rw [List.foldlM_nil]
    rfl
  | cons p l ih =>
    intro hl acc
    rw [List.foldlM_cons]
    by_cases hdeg : g.inDegree p.1 = 0
    · rcases hl p (List.mem_cons_self _ _) hdeg with ⟨lab, hlab, hcon⟩
      have hstep : unattachedStep g acc p = .ok acc := by
        unfold unattachedStep
        rw [if_pos (by simpa using hdeg), hlab]
        show Except.ok _ = _
        rw [if_neg (show ¬(alwaysContainedLabels.contains lab = true) by
          rw [hcon]; exact fun hc => Bool.noConfusion hc)]
      rw [hstep]
      exact ih (fun q hq => hl q (List.mem_cons_of_mem _ hq)) acc
    · have hstep : unattachedStep g acc p = .ok acc := by
        unfold unattachedStep
        rw [if_neg (by simpa using hdeg)]
        rfl
      rw [hstep]
      exact ih (fun q hq => hl q (List.mem_cons_of_mem _ hq)) acc

theorem stepUn_fold_props (st7 : BState) (u : List String)
    (hu : ∀ n ∈ u, st7.g.hasNode n = true) :
    (∀ k, (u.foldl (fun s n => s.addEdge "NO_VPC" n)
        (st7.addNode "NO_VPC" ⟨some "No VPC", some "lightgray", some 0⟩)).g.hasNode k = true ↔
      (st7.g.hasNode k = true ∨ k = "NO_VPC")) ∧
    (∀ k, k ≠ "NO_VPC" →
      (u.foldl (fun s n => s.addEdge "NO_VPC" n)
        (st7.addNode "NO_VPC" ⟨some "No VPC", some "lightgray", some 0⟩)).g.attrsOf k =
      st7.g.attrsOf k) ∧
    (u.foldl (fun s n => s.addEdge "NO_VPC" n)
      (st7.addNode "NO_VPC" ⟨some "No VPC", some "lightgray", some 0⟩)).g.labelOf "NO_VPC" =
      some "No VPC" ∧
    EdgeExt st7.g (u.foldl (fun s n => s.addEdge "NO_VPC" n)
      (st7.addNode "NO_VPC" ⟨some "No VPC", some "lightgray", some 0⟩)).g ∧
    (∀ n ∈ u, (u.foldl (fun s n => s.addEdge "NO_VPC" n)
      (st7.addNode "NO_VPC" ⟨some "No VPC", some "lightgray", some 0⟩)).g.hasEdge
        "NO_VPC" n = true) := by
  have hmain : (fun s : BState =>
      (∀ k, s.g.hasNode k = true ↔ (st7.g.hasNode k = true ∨ k = "NO_VPC")) ∧
      (∀ k, k ≠ "NO_VPC" → s.g.attrsOf k = st7.g.attrsOf k) ∧
      s.g.labelOf "NO_VPC" = some "No VPC" ∧
      EdgeExt st7.g s.g)
      (u.foldl (fun s n => s.addEdge "NO_VPC" n)
        (st7.addNode "NO_VPC" ⟨some "No VPC", some "lightgray", some 0⟩)) := by
    refine foldl_preserve (fun s n => s.addEdge "NO_VPC" n)
      (fun s : BState =>
        (∀ k, s.g.hasNode k = true ↔ (st7.g.hasNode k = true ∨ k = "NO_VPC")) ∧
        (∀ k, k ≠ "NO_VPC" → s.g.attrsOf k = st7.g.attrsOf k) ∧
        s.g.labelOf "NO_VPC" = some "No VPC" ∧
        EdgeExt st7.g s.g) u ?_ _ ?_
    · intro s x hx hP
      obtain ⟨hiff, hattrs, hlab, hext⟩ := hP
      have hsN : s.g.hasNode "NO_VPC" = true := (hiff "NO_VPC").mpr (Or.inr rfl)
      have hsx : s.g.hasNode x = true := (hiff x).mpr (Or.inl (hu x hx))
      refine ⟨?_, ?_, ?_, ?_⟩
      · intro k
        show (s.g.addEdge "NO_VPC" x).hasNode k = true ↔ _
        rw [hasNode_addEdge]
        constructor
        · rintro (h1 | h1 | h1)
          · exact (hiff k).mp h1
          · exact Or.inr h1
          · exact Or.inl (h1 ▸ hu x hx)
        · rintro (h1 | h1)
          · exact Or.inl ((hiff k).mpr (Or.inl h1))
          · exact Or.inr (Or.inl h1)
      · intro k hk
        show (s.g.addEdge "NO_VPC" x).attrsOf k = _
        rw [attrsOf_addEdge_endpoints s.g "NO_VPC" x k hsN hsx]
        exact hattrs k hk
      · show (s.g.addEdge "NO_VPC" x).labelOf "NO_VPC" = _
        unfold Graph.labelOf
        rw [attrsOf_addEdge_endpoints s.g "NO_VPC" x "NO_VPC" hsN hsx]
        exact hlab
      · exact edgeExt_trans hext (edgeExt_bstate_addEdge s "NO_VPC" x)
    · refine ⟨?_, ?_, ?_, ?_⟩
      · intro k
        exact hasNode_addNodeAttrs st7.g "NO_VPC" _ k
      · intro k hk
        exact attrsOf_addNodeAttrs_ne st7.g "NO_VPC" _ k hk
      · exact labelOf_addNodeAttrs_self st7.g "NO_VPC" _
      · exact edgeExt_addNodeAttrs st7.g "NO_VPC" _
  obtain ⟨hiff, hattrs, hlab, hext⟩ := hmain
  refine ⟨hiff, hattrs, hlab, hext, ?_⟩
  intro n hn
  refine foldl_establish _
    (fun s : BState => s.g.hasEdge "NO_VPC" n = true) u n hn ?_ ?_ _
  · intro s
    exact hasEdge_addEdge_self s.g "NO_VPC" n
  · intro s x _ hs
    exact hasEdge_of_ext (edgeExt_bstate_addEdge s "NO_VPC" x) hs

/-! ### Inversion of the origin predicate -/

theorem noVpc_not_origin (inp : Inventory) (hnat : noNoVpcNative inp = true) :
    ¬ NodeOrigin inp "NO_VPC" := by
  intro h
  rcases h with ⟨v, hv, hid⟩ | ⟨s, hs, hid | hid⟩ |
    ⟨db, hdb, hid | ⟨sn, hsn, ht, hid⟩⟩ | ⟨lb, hlb, hused, hid | hid⟩ |
    ⟨svc, hsvc, hid | hid | ⟨b, hb, ⟨n, hr, hne2, hid⟩ | hid⟩⟩
  · exact noNoVpcNative_spec inp v.VpcId hnat (vpcId_mem_native inp hv) hid.symm
  · exact noNoVpcNative_spec inp s.SubnetId hnat (subnetId_mem_native inp hs) hid.symm
  · exact noNoVpcNative_spec inp s.VpcId hnat (subnetVpc_mem_native inp hs) hid.symm
  · exact noNoVpcNative_spec inp db.DBInstanceIdentifier hnat
      (dbId_mem_native inp hdb) hid.symm
  · exact noNoVpcNative_spec inp _ hnat (dbSn_mem_native inp hdb hsn) hid.symm
  · exact absurd hid.symm (lb_id_ne_novpc lb.LoadBalancerName)
  · exact noNoVpcNative_spec inp lb.VpcId hnat (lbVpc_mem_native inp hlb) hid.symm
  · exact absurd hid.symm (cluster_id_ne_novpc (clusterShortName svc))
  · exact absurd hid.symm (svc_id_ne_novpc svc.serviceName)
  · exact absurd hid.symm (lb_id_ne_novpc n)
  · rcases tgToVpc_values inp.targetGroups _ _ hid with ⟨tg, htg, heq⟩
    exact noNoVpcNative_spec inp tg.VpcId hnat (tgVpc_mem_native inp htg) heq.symm

theorem lb_origin_inversion (inp : Inventory) (n : String)
    (hfree : nativesLbFree inp = true) (h : NodeOrigin inp ("LB:" ++ n)) :
    (∃ lb ∈ inp.loadBalancers, lb.LoadBalancerName = n ∧
      (usedLbNames inp.services).contains n = true) ∨
    (∃ svc ∈ inp.services, ∃ b ∈ svc.loadBalancers.getD [],
      resolveStep7 b = .ok (some n) ∧ n ≠ "") := by
  rcases h with ⟨v, hv, hid⟩ | ⟨s, hs, hid | hid⟩ |
    ⟨db, hdb, hid | ⟨sn, hsn, ht, hid⟩⟩ | ⟨lb, hlb, hused, hid | hid⟩ |
    ⟨svc, hsvc, hid | hid | ⟨b, hb, ⟨n2, hr, hne2, hid⟩ | hid⟩⟩
  · exact absurd hid.symm (not_lbPrefixed_ne v.VpcId n
      (nativesLbFree_spec inp _ hfree (vpcId_mem_native inp hv)))
  · exact absurd hid.symm (not_lbPrefixed_ne s.SubnetId n
      (nativesLbFree_spec inp _ hfree (subnetId_mem_native inp hs)))
  · exact absurd hid.symm (not_lbPrefixed_ne s.VpcId n
      (nativesLbFree_spec inp _ hfree (subnetVpc_mem_native inp hs)))
  · exact absurd hid.symm (not_lbPrefixed_ne db.DBInstanceIdentifier n
      (nativesLbFree_spec inp _ hfree (dbId_mem_native inp hdb)))
  · exact absurd hid.symm (not_lbPrefixed_ne _ n
      (nativesLbFree_spec inp _ hfree (dbSn_mem_native inp hdb hsn)))
  · have heq := lb_id_inj hid
    refine Or.inl ⟨lb, hlb, heq.symm, ?_⟩
    rw [heq]
    exact hused
  · exact absurd hid.symm (not_lbPrefixed_ne lb.VpcId n
      (nativesLbFree_spec inp _ hfree (lbVpc_mem_native inp hlb)))
  · exact absurd hid.symm (cluster_id_ne_lb_id (clusterShortName svc) n)
  · exact absurd hid.symm (svc_id_ne_lb_id svc.serviceName n)
  · have heq := lb_id_inj hid
    subst heq
    exact Or.inr ⟨svc, hsvc, b, hb, hr, hne2⟩
  · rcases tgToVpc_values inp.targetGroups _ _ hid with ⟨tg, htg, heq⟩
    exact absurd heq.symm (not_lbPrefixed_ne tg.VpcId n
      (nativesLbFree_spec inp _ hfree (tgVpc_mem_native inp htg)))

/-! ### Claim C2 -/

/-- C2 is refuted as stated: on an input whose orphan partition is
non-empty (one service whose cluster node is unattached), the legend
shows no unattached entry at all, because the render-time count is
recomputed after the `NO_VPC` edges were added. -/
theorem c2_counterexample :
    (build cexInputC2).map
      (fun r => (r.2.isEmpty, legendHasUnattachedEntry r.1.g)) =
      .ok (false, .ok false) := rfl

/-- C2 amended: for every successful build, the legend recomputes the
unattached count on the final graph — after step 8 gave every
unattached node an inbound edge from `NO_VPC` — so the count is always
zero and the unattached legend entry never appears, whether or not the
orphan partition is non-empty. -/
theorem c2_amended_legend (inp : Inventory) (st : BState) (u : List String)
    (h : build inp = .ok (st, u)) :
    legendUnattachedCount st.g = .ok 0 ∧ legendHasUnattachedEntry st.g = .ok false := by
  obtain ⟨st7, h7, h8⟩ := build_ok_decomp inp st u h
  obtain ⟨hun, hcase⟩ := stepUnattached_ok st7 st u h8
  have hnil : unattachedOf st.g = .ok [] := by
    rcases hcase with ⟨hu0, hst⟩ | ⟨hu0, hst⟩
    · rw [hst]
      rw [hu0] at hun
      exact hun
    · have hmemu : ∀ n ∈ u, st7.g.hasNode n = true := by
        intro n hn
        rw [unattachedOf_mem st7.g u hun n] at hn
        rcases hn with ⟨p, hp, hpk, _, _⟩
        exact hpk ▸ hasNode_of_mem_nodes st7.g p hp
      obtain ⟨hiff, hattrs, hlabNV, hext, hedges⟩ := stepUn_fold_props st7 u hmemu
      rw [← hst] at hiff hattrs hlabNV hext hedges
      apply unattachedOf_nil_of_no_candidates
      intro p hp hdeg
      by_cases hk : p.1 = "NO_VPC"
      · exact ⟨"No VPC", by rw [hk]; exact hlabNV, by decide⟩
      · have hk7 : st7.g.hasNode p.1 = true := by
          rcases (hiff p.1).mp (hasNode_of_mem_nodes _ p hp) with h1 | h1
          · exact h1
          · exact absurd h1 hk
        have hdeg7 : st7.g.inDegree p.1 = 0 := inDegree_zero_of_ext hext hdeg
        obtain ⟨q, hq, hqk⟩ := exists_mem_of_hasNode st7.g p.1 hk7
        rcases unattachedOf_complete st7.g u hun q hq (by rw [hqk]; exact hdeg7)
          with ⟨lab, hlab, himp⟩
        refine ⟨lab, ?_, ?_⟩
        · show (st.g.attrsOf p.1).bind (fun a => a.label) = some lab
          rw [hattrs p.1 hk]
          show st7.g.labelOf p.1 = some lab
          rw [← hqk]
          exact hlab
        · cases hcc : alwaysContainedLabels.contains lab
          · rfl
          · exfalso
            have hmem : p.1 ∈ u := by
              rw [← hqk]
              exact himp hcc
            exact inDegree_ne_zero_of_hasEdge (hedges p.1 hmem) hdeg
  constructor
  · unfold legendUnattachedCount
    rw [hnil]
    rfl
  · unfold legendHasUnattachedEntry
    rw [hnil]
    rfl

/-- Witness for C2 amended at a concrete input. -/
theorem c2_amended_witness :
    ∃ st u, build cexInputC1 = .ok (st, u) ∧
      legendUnattachedCount st.g = .ok 0 ∧
      legendHasUnattachedEntry st.g = .ok false :=
  ⟨_, _, rfl, c2_amended_legend cexInputC1 _ _ rfl⟩

/-! ### Claim C6 -/

/-- C6: for inputs whose native identifiers never equal `NO_VPC`, the
unattached list computed in step 8 is exactly the set of nodes of the
step 7 graph whose in-degree is zero and whose label is an
always-contained kind; when it is empty no `NO_VPC` node exists and no
orphan diagram is produced; when it is non-empty the `NO_VPC` sentinel
node exists and carries an outbound edge to every unattached node. -/
theorem c6_unattached_sentinel (inp : Inventory) (st7 st : BState) (u : List String)
    (h7 : build7 inp = .ok st7) (h8 : stepUnattached st7 = .ok (st, u))
    (hnat : noNoVpcNative inp = true) :
    (∀ n, n ∈ u ↔ (st7.g.hasNode n = true ∧ st7.g.inDegree n = 0 ∧
      ∃ lab, st7.g.labelOf n = some lab ∧ alwaysContainedLabels.contains lab = true)) ∧
    (u = [] → st.g.hasNode "NO_VPC" = false ∧
      diagrams inp u = inp.vpcs.map (fun v => (v.VpcId, false))) ∧
    (u ≠ [] → st.g.hasNode "NO_VPC" = true ∧
      ∀ n ∈ u, st.g.hasEdge "NO_VPC" n = true) := by
  obtain ⟨hun, hcase⟩ := stepUnattached_ok st7 st u h8
  refine ⟨?_, ?_, ?_⟩
  · intro n
    rw [unattachedOf_mem st7.g u hun n]
    constructor
    · rintro ⟨p, hp, hpk, hdeg, lab, hlab, hc⟩
      refine ⟨hpk ▸ hasNode_of_mem_nodes _ p hp, by rw [← hpk]; exact hdeg, lab,
        by rw [← hpk]; exact hlab, hc⟩
    · rintro ⟨hn, hdeg, lab, hlab, hc⟩
      obtain ⟨p, hp, hpk⟩ := exists_mem_of_hasNode st7.g n hn
      exact ⟨p, hp, hpk, by rw [hpk]; exact hdeg, lab, by rw [hpk]; exact hlab, hc⟩
  · intro hu0
    rcases hcase with ⟨_, hst⟩ | ⟨hne, _⟩
    · constructor
      · rw [hst]
        cases hval : st7.g.hasNode "NO_VPC"
        · rfl
        · exact absurd (build7_origin inp st7 h7 "NO_VPC" hval)
            (noVpc_not_origin inp hnat)
      · rw [hu0]
        unfold diagrams
        simp
    · exact absurd hu0 hne
  · intro hne
    rcases hcase with ⟨hu0, _⟩ | ⟨_, hst⟩
    · exact absurd hu0 hne
    · have hmemu : ∀ n ∈ u, st7.g.hasNode n = true := by
        intro n hn
        rw [unattachedOf_mem st7.g u hun n] at hn
        rcases hn with ⟨p, hp, hpk, _, _⟩
        exact hpk ▸ hasNode_of_mem_nodes st7.g p hp
      obtain ⟨hiff, _, _, _, hedges⟩ := stepUn_fold_props st7 u hmemu
      rw [hst]
      exact ⟨(hiff "NO_VPC").mpr (Or.inr rfl), hedges⟩

/-- Witness for C6 at a concrete input with a non-empty orphan
partition. -/
theorem c6_witness :
    ∃ st7 st u, build7 cexInputC2 = .ok st7 ∧ stepUnattached st7 = .ok (st, u) ∧
      (("CLUSTER:" ++ "cl2") ∈ u ↔ (st7.g.hasNode ("CLUSTER:" ++ "cl2") = true ∧
        st7.g.inDegree ("CLUSTER:" ++ "cl2") = 0 ∧
        ∃ lab, st7.g.labelOf ("CLUSTER:" ++ "cl2") = some lab ∧
          alwaysContainedLabels.contains lab = true)) ∧
      (u ≠ [] → st.g.hasNode "NO_VPC" = true ∧
        ∀ n ∈ u, st.g.hasEdge "NO_VPC" n = true) :=
  ⟨_, _, _, rfl, rfl,
   (c6_unattached_sentinel cexInputC2 _ _ _ rfl rfl rfl).1 ("CLUSTER:" ++ "cl2"),
   (c6_unattached_sentinel cexInputC2 _ _ _ rfl rfl rfl).2.2⟩

/-! ### Claim C5 -/

/-- C5 is refuted as stated: the load balancer `foo` is named directly
in a service binding, yet it never receives a graph node — it is absent
from the load-balancer collection (so step 6 skips it) and its binding
has an empty target-group ARN (so step 7 resolves nothing). -/
theorem c5_counterexample :
    (build cexInputC5).map (fun r => r.1.g.hasNode "LB:foo") = .ok false := rfl

/-- C5 amended: a load balancer of the collection whose name is in the
used-name set always receives a node, and a name resolved (non-empty)
by some binding under the step 7 rule always receives an on-demand
node; conversely, on inputs whose native ids do not start with `LB:`, a
name that is in no used collection entry and is resolved by no binding
under the step 7 rule receives no node. A directly named balancer with
an empty ARN and absent from the collection therefore gets none, as the
counterexample shows. -/
theorem c5_amended_lb_nodes (inp : Inventory) (st : BState) (u : List String)
    (n : String) (h : build inp = .ok (st, u)) :
    ((∃ lb ∈ inp.loadBalancers, lb.LoadBalancerName = n ∧
        (usedLbNames inp.services).contains n = true) →
      st.g.hasNode ("LB:" ++ n) = true) ∧
    ((∃ svc ∈ inp.services, ∃ b ∈ svc.loadBalancers.getD [],
        resolveStep7 b = .ok (some n) ∧ n ≠ "") →
      st.g.hasNode ("LB:" ++ n) = true) ∧
    (nativesLbFree inp = true →
      (∀ lb ∈ inp.loadBalancers, lb.LoadBalancerName = n →
        (usedLbNames inp.services).contains n = false) →
      (∀ svc ∈ inp.services, ∀ b ∈ svc.loadBalancers.getD [],
        resolveStep7 b = .ok (some n) → n = "") →
      st.g.hasNode ("LB:" ++ n) = false) := by
  obtain ⟨st7, h7, h8⟩ := build_ok_decomp inp st u h
  obtain ⟨stA, hA, hB⟩ := build7_ok_decomp inp st7 h7
  refine ⟨?_, ?_, ?_⟩
  · rintro ⟨lb, hlb, hname, hused⟩
    have hstB : (stepLbs (stepDbs stA inp.dbInstances) inp.loadBalancers
        (usedLbNames inp.services)).g.hasNode ("LB:" ++ n) = true := by
      unfold stepLbs
      refine foldl_establish _ (fun s : BState => s.g.hasNode ("LB:" ++ n) = true)
        inp.loadBalancers lb hlb ?_ ?_ _
      · intro s
        rw [if_pos (show (usedLbNames inp.services).contains lb.LoadBalancerName = true
          from by rw [hname]; exact hused)]
        dsimp only
        rw [hname]
        exact (hasNode_addEdge ..).mpr (Or.inr (Or.inr rfl))
      · intro s x _ hs
        by_cases hc : (usedLbNames inp.services).contains x.LoadBalancerName = true
        · rw [if_pos hc]
          dsimp only
          exact (hasNode_addEdge ..).mpr
            (Or.inl ((hasNode_addNodeAttrs ..).mpr (Or.inl hs)))
        · rw [if_neg hc]
          exact hs
    have hst7 := (stepServices_extends _ _ _ _ hB).1 _ hstB
    exact (stepUnattached_extends st7 st u h8).1 _ hst7
  · rintro ⟨svc, hsvc, b, hb, hr, hne⟩
    have hst7 : st7.g.hasNode ("LB:" ++ n) = true := by
      unfold stepServices at hB
      refine @exceptFoldlM_ok_establish BState EcsService BuildError _
        (fun s : BState => s.g.hasNode ("LB:" ++ n) = true)
        inp.services svc hsvc ?_ ?_ _ st7 hB
      · intro s s2 hss
        unfold stepService at hss
        have hss' : (svc.loadBalancers.getD []).foldlM
            (processBinding (tgToVpc inp.targetGroups) ("SVC:" ++ svc.serviceName))
            (((s.addNode ("CLUSTER:" ++ clusterShortName svc)
                ⟨some "ECS Cluster", some "lightyellow", some 3⟩).addNode
              ("SVC:" ++ svc.serviceName)
                ⟨some ("ECS Service\n" ++ svc.serviceName), some "gold", some 4⟩).addEdge
              ("CLUSTER:" ++ clusterShortName svc) ("SVC:" ++ svc.serviceName)) =
            .ok s2 := hss
        refine @exceptFoldlM_ok_establish BState ServiceLbBinding BuildError _
          (fun s : BState => s.g.hasNode ("LB:" ++ n) = true)
          _ b hb ?_ ?_ _ s2 hss'
        · intro s3 s4 hpb
          obtain ⟨st2x, heq, hn2, _⟩ :=
            processBinding_resolved_node (tgToVpc inp.targetGroups)
              ("SVC:" ++ svc.serviceName) s3 b n hr hne
          rw [heq] at hpb
          injection hpb with h5
          exact h5 ▸ hn2
        · intro s3 x s4 _ hfx hs3
          exact (processBinding_extends _ _ s3 x s4 hfx).1 _ hs3
      · intro s x s2 _ hfx hs
        exact (stepService_extends _ s x s2 hfx).1 _ hs
    exact (stepUnattached_extends st7 st u h8).1 _ hst7
  · intro hfree hnotused hnores
    cases hval : st.g.hasNode ("LB:" ++ n)
    · rfl
    · exfalso
      obtain ⟨hun, hcase⟩ := stepUnattached_ok st7 st u h8
      have hst7 : st7.g.hasNode ("LB:" ++ n) = true := by
        rcases hcase with ⟨_, hst⟩ | ⟨hne2, hst⟩
        · rw [hst] at hval
          exact hval
        · have hmemu : ∀ n2 ∈ u, st7.g.hasNode n2 = true := by
            intro n2 hn2
            rw [unattachedOf_mem st7.g u hun n2] at hn2
            rcases hn2 with ⟨p, hp, hpk, _, _⟩
            exact hpk ▸ hasNode_of_mem_nodes st7.g p hp
          obtain ⟨hiff, _, _, _, _⟩ := stepUn_fold_props st7 u hmemu
          rw [hst] at hval
          rcases (hiff _).mp hval with h1 | h1
          · exact h1
          · exact absurd h1 (lb_id_ne_novpc n)
      rcases lb_origin_inversion inp n hfree (build7_origin inp st7 h7 _ hst7) with
        ⟨lb, hlb, hname, hused⟩ | ⟨svc, hsvc, b, hb, hr, hne⟩
      · rw [hnotused lb hlb hname] at hused
        exact Bool.noConfusion hused
      · exact hne (hnores svc hsvc b hb hr)

/-- Witness for C5 amended at a concrete input covering all three
parts. -/
theorem c5_amended_witness :
    ∃ st u, build invC5w = .ok (st, u) ∧
      st.g.hasNode ("LB:" ++ "lbA") = true ∧
      st.g.hasNode ("LB:" ++ "parsed") = true ∧
      st.g.hasNode ("LB:" ++ "ghost") = false :=
  ⟨_, _, rfl,
   (c5_amended_lb_nodes invC5w _ _ "lbA" rfl).1
     ⟨⟨"arnA", "lbA", "vpcA", none⟩, by decide, rfl, by decide⟩,
   (c5_amended_lb_nodes invC5w _ _ "parsed" rfl).2.1
     ⟨⟨"s", "c", some [⟨some "lbA", some "q/r"⟩, ⟨none, some "tg/parsed/id"⟩]⟩,
      by decide, ⟨none, some "tg/parsed/id"⟩, by decide, by decide, by decide⟩,
   (c5_amended_lb_nodes invC5w _ _ "ghost" rfl).2.2 (by decide) (by decide) (by decide)⟩

end AwsInventory
